import Mathlib

/-!
Verification of the FLOWER cluster-formation and energy-balancing engine
(flower/flower_sim.py) against its natural-language specification.

The simulator is shallowly embedded: Python floats are modelled as exact
rationals, Python lists as Lean lists (with list.remove = erase of the first
occurrence and list append at the tail), Python sets iterated in a fixed
list order, and the external collaborators (grid geometry, nearest-node
search, pairwise cluster merge, energy model) as explicit parameters whose
contracts come from section 6 of the specification.  Standard deviations are
compared through their squares (variance), which orders identically.
-/

namespace Flower

/-- A planar point with rational coordinates. -/
abbrev Pt : Type := ℚ × ℚ

/-- Squared Euclidean distance.  The source compares Euclidean distances;
comparisons of squared distances agree, so distances are modelled squared. -/
def dist2 (p q : Pt) : ℚ := (p.1 - q.1) ^ 2 + (p.2 - q.2) ^ 2

/-- Python min(xs, key=f): the first element attaining the minimal key;
none on an empty list (Python raises ValueError). -/
def pyMin {α : Type} (f : α → ℚ) : List α → Option α
  | [] => none
  | x :: xs => some (xs.foldl (fun best y => if f y < f best then y else best) x)

/-- Python max(xs, key=f): the first element attaining the maximal key;
none on an empty list. -/
def pyMax {α : Type} (f : α → ℚ) : List α → Option α
  | [] => none
  | x :: xs => some (xs.foldl (fun best y => if f best < f y then y else best) x)

/-- All pairs of two lists, first list major, preserving order. -/
def allPairs {α β : Type} (l1 : List α) (l2 : List β) : List (α × β) :=
  l1.foldr (fun a acc => (l2.map fun b => (a, b)) ++ acc) []

/-- Modelled from the spec: closest_nodes (core/cluster.py, which is not
under src/) is the nearest-node search of section 6, "given two node
collections, returns the pair (one from each) with minimal spatial
distance".  Ties resolve to the earliest pair in iteration order. -/
def closest_nodes {α β : Type} (loc1 : α → Pt) (loc2 : β → Pt)
    (l1 : List α) (l2 : List β) : Option (α × β) :=
  pyMin (fun p => dist2 (loc1 p.1) (loc2 p.2)) (allPairs l1 l2)

theorem foldl_min_spec {α : Type} (f : α → ℚ) (as : List α) : ∀ b : α,
    ((as.foldl (fun best y => if f y < f best then y else best) b = b ∨
        as.foldl (fun best y => if f y < f best then y else best) b ∈ as) ∧
      f (as.foldl (fun best y => if f y < f best then y else best) b) ≤ f b ∧
      ∀ y ∈ as,
        f (as.foldl (fun best y => if f y < f best then y else best) b) ≤ f y) := by
  induction as with
  | nil => intro b; exact ⟨Or.inl rfl, le_refl _, by simp⟩
  | cons q rest ih =>
    intro b
    simp only [List.foldl_cons]
    by_cases hq : f q < f b
    · rw [if_pos hq]
      obtain ⟨hmem, hle, hall⟩ := ih q
      refine ⟨?_, hle.trans (le_of_lt hq), ?_⟩
      · rcases hmem with h | h
        · exact Or.inr (by rw [h]; exact List.mem_cons_self q rest)
        · exact Or.inr (List.mem_cons_of_mem q h)
      · intro y hy
        rw [List.mem_cons] at hy
        rcases hy with rfl | hy
        · exact hle
        · exact hall y hy
    · rw [if_neg hq]
      obtain ⟨hmem, hle, hall⟩ := ih b
      refine ⟨?_, hle, ?_⟩
      · rcases hmem with h | h
        · exact Or.inl h
        · exact Or.inr (List.mem_cons_of_mem q h)
      · intro y hy
        rw [List.mem_cons] at hy
        rcases hy with rfl | hy
        · exact hle.trans (not_lt.mp hq)
        · exact hall y hy

theorem pyMin_spec {α : Type} (f : α → ℚ) (l : List α) (x : α)
    (h : pyMin f l = some x) : x ∈ l ∧ ∀ y ∈ l, f x ≤ f y := by
  cases l with
  | nil => cases h
  | cons a as =>
    rw [pyMin] at h
    obtain ⟨hmem, hle, hall⟩ := foldl_min_spec f as a
    cases h
    refine ⟨?_, ?_⟩
    · rcases hmem with h | h
      · rw [h]
        exact List.mem_cons_self a as
      · exact List.mem_cons_of_mem a h
    · intro y hy
      rw [List.mem_cons] at hy
      rcases hy with rfl | hy
      · exact hle
      · exact hall y hy

theorem foldl_max_mem {α : Type} (f : α → ℚ) (as : List α) : ∀ b : α,
    (as.foldl (fun best y => if f best < f y then y else best) b = b ∨
      as.foldl (fun best y => if f best < f y then y else best) b ∈ as) := by
  induction as with
  | nil => intro b; exact Or.inl rfl
  | cons q rest ih =>
    intro b
    simp only [List.foldl_cons]
    by_cases hq : f b < f q
    · rw [if_pos hq]
      rcases ih q with h | h
      · exact Or.inr (by rw [h]; exact List.mem_cons_self q rest)
      · exact Or.inr (List.mem_cons_of_mem q h)
    · rw [if_neg hq]
      rcases ih b with h | h
      · exact Or.inl h
      · exact Or.inr (List.mem_cons_of_mem q h)

theorem pyMax_mem {α : Type} (f : α → ℚ) (l : List α) (x : α)
    (h : pyMax f l = some x) : x ∈ l := by
  cases l with
  | nil => cases h
  | cons a as =>
    rw [pyMax] at h
    cases h
    rcases foldl_max_mem f as a with h | h
    · rw [h]
      exact List.mem_cons_self a as
    · exact List.mem_cons_of_mem a h

theorem allPairs_cons {α β : Type} (a : α) (l1 : List α) (l2 : List β) :
    allPairs (a :: l1) l2 = (l2.map fun b => (a, b)) ++ allPairs l1 l2 := rfl

theorem mem_allPairs_iff {α β : Type} (l1 : List α) (l2 : List β)
    (p : α × β) : p ∈ allPairs l1 l2 ↔ p.1 ∈ l1 ∧ p.2 ∈ l2 := by
  induction l1 with
  | nil => simp [allPairs]
  | cons a l1 ih =>
    rw [allPairs_cons]
    simp only [List.mem_append, List.mem_map, List.mem_cons, ih]
    constructor
    · rintro (⟨b, hb, rfl⟩ | ⟨h1, h2⟩)
      · exact ⟨Or.inl rfl, hb⟩
      · exact ⟨Or.inr h1, h2⟩
    · rintro ⟨h1 | h1, h2⟩
      · left
        exact ⟨p.2, h2, by rw [← h1]⟩
      · exact Or.inr ⟨h1, h2⟩

theorem closest_nodes_spec {α β : Type} (loc1 : α → Pt) (loc2 : β → Pt)
    (l1 : List α) (l2 : List β) (a : α) (b : β)
    (h : closest_nodes loc1 loc2 l1 l2 = some (a, b)) :
    a ∈ l1 ∧ b ∈ l2 ∧ ∀ c ∈ l1, ∀ d ∈ l2,
      dist2 (loc1 a) (loc2 b) ≤ dist2 (loc1 c) (loc2 d) := by
  obtain ⟨hmem, hall⟩ := pyMin_spec _ _ _ h
  rw [mem_allPairs_iff] at hmem
  refine ⟨hmem.1, hmem.2, ?_⟩
  intro c hc d hd
  exact hall (c, d) ((mem_allPairs_iff l1 l2 (c, d)).mpr ⟨hc, hd⟩)

theorem pyMax_three {α : Type} (f : α → ℚ) (a b c : α)
    (h1 : f a < f b) (h2 : ¬ f b < f c) : pyMax f [a, b, c] = some b := by
  rw [pyMax, List.foldl_cons, List.foldl_cons, List.foldl_nil]
  rw [if_pos h1, if_neg h2]

theorem pyMin_keep_first {α : Type} (f : α → ℚ) (a : α) (l : List α)
    (h : ∀ y ∈ l, ¬ f y < f a) : pyMin f (a :: l) = some a := by
  rw [pyMin]
  congr 1
  induction l with
  | nil => rfl
  | cons y ys ih =>
    rw [List.foldl_cons, if_neg (h y (List.mem_cons_self y ys))]
    exact ih fun z hz => h z (List.mem_cons_of_mem y hz)

/-! ### Branch selector (much_greater_than, lines 31-35 and 528-547) -/

/-- An unguarded division by zero (Python ZeroDivisionError, or the numpy
warning promoted to an error by the warnings filter at line 28). -/
inductive DivErr : Type
  | divByZero
deriving DecidableEq, Repr

/-- much_greater_than (lines 31-35): rhs / lhs < r, the division failing
when lhs is zero.  The float literal 0.2 is passed as the rational r. -/
def much_greater_than (lhs rhs r : ℚ) : Except DivErr Bool :=
  if lhs = 0 then .error .divByZero
  else .ok (decide (rhs / lhs < r))

/-- The three planning strategies compute_paths routes into. -/
inductive Branch : Type
  | em
  | ec
  | balanced
deriving DecidableEq, Repr

/-- The branch-selection prefix of compute_paths (lines 535-547): first test
mech against comms, then comms against mech, else the balanced branch. -/
def select_branch (mech comms r : ℚ) : Except DivErr Branch :=
  match much_greater_than mech comms r with
  | .error e => .error e
  | .ok true => .ok .em
  | .ok false =>
    match much_greater_than comms mech r with
    | .error e => .error e
    | .ok true => .ok .ec
    | .ok false => .ok .balanced

/-! ### Coverage selector (init_cells, lines 98-170) -/

/-- A grid cell as seen by the coverage selector: identity, access count,
one-hop signal count, proximity to the damaged center, and the set of
segments it can reach (segments as natural-number ids). -/
structure CCell : Type where
  cid : Nat
  access : Nat
  signal_hop_count : Nat
  proximity : ℚ
  segs : Finset Nat
deriving DecidableEq

/-- The candidate-comparison body of the cover scan (lines 135-155): given
the covered-segment set, the current candidate and the cell under
consideration, return the updated candidate. -/
def updateCandidate (segment_cover : Finset Nat) (candidate cell : CCell) : CCell :=
  let pot_cell_union := (segment_cover ∪ cell.segs).card
  let pot_candidate_union := (segment_cover ∪ candidate.segs).card
  if pot_candidate_union < pot_cell_union then cell
  else if pot_candidate_union = pot_cell_union then
    if candidate.access < cell.access then cell
    else if candidate.signal_hop_count < cell.signal_hop_count then cell
    else if candidate.proximity > cell.proximity then cell
    else candidate
  else candidate

/-- The inner for-loop of the cover computation (lines 121-155): skip cells
with zero access, bootstrap the candidate from the first eligible cell,
break out as soon as a candidate exists while nothing is covered yet, skip
the damaged center, otherwise compare and update. -/
def selectCandidate (damaged : CCell) (segment_cover : Finset Nat) :
    Option CCell → List CCell → Option CCell
  | cand, [] => cand
  | cand, cell :: rest =>
    if cell.access = 0 then selectCandidate damaged segment_cover cand rest
    else
      let cand1 := cand.getD cell
      if segment_cover = ∅ then some cand1
      else if cell = damaged then selectCandidate damaged segment_cover (some cand1) rest
      else
        selectCandidate damaged segment_cover
          (some (updateCandidate segment_cover cand1 cell)) rest

/-- The greedy set-cover loop of init_cells (lines 113-158), fueled.  The
cover is kept as a duplicate-free list in insertion order (Python keeps a
set).  Returns none when the fuel runs out (the Python loop would not have
terminated) or when the scan yields no candidate (Python AttributeError). -/
def coverLoop (cells : List CCell) (damaged : CCell) (allSegs : Finset Nat) :
    Nat → Finset Nat → List CCell → Option (List CCell)
  | 0, _, _ => none
  | fuel + 1, segment_cover, cell_cover =>
    if segment_cover = allSegs then some cell_cover
    else
      match selectCandidate damaged segment_cover none cells with
      | none => none
      | some cand =>
        coverLoop cells damaged allSegs fuel (segment_cover ∪ cand.segs)
          (if cand ∈ cell_cover then cell_cover else cell_cover ++ [cand])

/-- Outcome of init_cells: either the cover, or the failed assert at line
163 (the insufficient-cover configuration error). -/
inductive CoverResult : Type
  | ok (cover : List CCell)
  | insufficientCover
deriving DecidableEq

/-- init_cells (lines 98-170): compute the greedy cover, then assert that
the configured agent count is strictly below the cover size. -/
def init_cells (mdc_count : Nat) (cells : List CCell) (damaged : CCell)
    (allSegs : Finset Nat) (fuel : Nat) : Option CoverResult :=
  (coverLoop cells damaged allSegs fuel ∅ []).map fun cover =>
    if mdc_count < cover.length then .ok cover else .insufficientCover

/-- The final value of the per-segment covering-cell reference set by the
loop at lines 166-168: the last cell in iteration order whose segment set
contains the segment (later iterations overwrite earlier ones). -/
def segRef (cover : List CCell) (s : Nat) : Option CCell :=
  (cover.filter fun c => s ∈ c.segs).getLast?

/-- Union of the reachable-segment sets of a list of cells. -/
def segUnion (cover : List CCell) : Finset Nat :=
  cover.foldr (fun c acc => c.segs ∪ acc) ∅

theorem segUnion_mono {cover : List CCell} {c : CCell} (h : c ∈ cover) :
    c.segs ⊆ segUnion cover := by
  induction cover with
  | nil => cases h
  | cons d rest ih =>
    rw [List.mem_cons] at h
    rcases h with rfl | h
    · exact Finset.subset_union_left
    · exact (ih h).trans Finset.subset_union_right

theorem mem_segUnion {cover : List CCell} {s : Nat} (h : s ∈ segUnion cover) :
    ∃ c ∈ cover, s ∈ c.segs := by
  induction cover with
  | nil => simp [segUnion] at h
  | cons d rest ih =>
    rcases Finset.mem_union.mp h with h | h
    · exact ⟨d, List.mem_cons_self d rest, h⟩
    · obtain ⟨c, hc, hs⟩ := ih h
      exact ⟨c, List.mem_cons_of_mem d hc, hs⟩

theorem segUnion_append_singleton (cc : List CCell) (c : CCell) :
    segUnion (cc ++ [c]) = segUnion cc ∪ c.segs := by
  induction cc with
  | nil => simp [segUnion]
  | cons d rest ih =>
    simp only [segUnion, List.cons_append, List.foldr_cons] at *
    rw [ih, Finset.union_assoc]

theorem coverLoop_invariant (cells : List CCell) (damaged : CCell)
    (allSegs : Finset Nat) :
    ∀ (fuel : Nat) (sc : Finset Nat) (cc cover : List CCell),
      sc = segUnion cc →
      coverLoop cells damaged allSegs fuel sc cc = some cover →
      segUnion cover = allSegs := by
  intro fuel
  induction fuel with
  | zero => intro sc cc cover _ h; simp [coverLoop] at h
  | succ n ih =>
    intro sc cc cover hinv h
    rw [coverLoop] at h
    by_cases hdone : sc = allSegs
    · rw [if_pos hdone] at h
      cases h
      rw [← hinv, hdone]
    · rw [if_neg hdone] at h
      cases hsel : selectCandidate damaged sc none cells with
      | none => rw [hsel] at h; cases h
      | some cand =>
        rw [hsel] at h
        simp only [] at h
        by_cases hmem : cand ∈ cc
        · rw [if_pos hmem] at h
          refine ih _ _ _ ?_ h
          rw [hinv]
          have hsub : cand.segs ⊆ segUnion cc := segUnion_mono hmem
          rw [Finset.union_eq_left.mpr hsub]
        · rw [if_neg hmem] at h
          refine ih _ _ _ ?_ h
          rw [hinv, segUnion_append_singleton]

theorem getLast?_of_ne_nil {α : Type} {l : List α} (h : l ≠ []) :
    ∃ a, l.getLast? = some a ∧ a ∈ l := by
  cases l with
  | nil => exact absurd rfl h
  | cons x xs =>
    exact ⟨(x :: xs).getLast (by simp), List.getLast?_eq_getLast _ _,
      List.getLast_mem _⟩

/-- C5: when the coverage selector returns normally, the union of the
reachable-segment sets of the chosen cover equals the full segment set, and
every segment ends up referencing exactly one covering cell of that cover
whose reachable set contains it. -/
theorem C5_cover_exact (cells : List CCell) (damaged : CCell)
    (allSegs : Finset Nat) (fuel : Nat) (cover : List CCell)
    (h : coverLoop cells damaged allSegs fuel ∅ [] = some cover) :
    segUnion cover = allSegs ∧
      ∀ s ∈ allSegs, ∃ c, segRef cover s = some c ∧ c ∈ cover ∧ s ∈ c.segs := by
  have hu : segUnion cover = allSegs :=
    coverLoop_invariant cells damaged allSegs fuel ∅ [] cover (by simp [segUnion]) h
  refine ⟨hu, ?_⟩
  intro s hs
  obtain ⟨c, hc, hcs⟩ := mem_segUnion (hu ▸ hs)
  have hne : (cover.filter fun c => decide (s ∈ c.segs)) ≠ [] := by
    intro hnil
    have hmem : c ∈ cover.filter fun c => decide (s ∈ c.segs) :=
      List.mem_filter.mpr ⟨hc, by simpa⟩
    rw [hnil] at hmem
    cases hmem
  obtain ⟨d, hd, hdm⟩ := getLast?_of_ne_nil hne
  obtain ⟨hdc, hds⟩ := List.mem_filter.mp hdm
  exact ⟨d, hd, hdc, by simpa using hds⟩

/-- Witness for C5 on a one-cell, one-segment configuration. -/
theorem C5_cover_exact_witness :
    coverLoop [⟨0, 1, 0, 0, {0}⟩] ⟨9, 0, 0, 0, ∅⟩ {0} 2 ∅ [] =
        some [⟨0, 1, 0, 0, {0}⟩] ∧
      (segUnion [(⟨0, 1, 0, 0, {0}⟩ : CCell)] = {0} ∧
        ∀ s ∈ ({0} : Finset Nat), ∃ c,
          segRef [(⟨0, 1, 0, 0, {0}⟩ : CCell)] s = some c ∧
            c ∈ [(⟨0, 1, 0, 0, {0}⟩ : CCell)] ∧ s ∈ c.segs) :=
  ⟨by decide,
    C5_cover_exact [⟨0, 1, 0, 0, {0}⟩] ⟨9, 0, 0, 0, ∅⟩ {0} 2
      [⟨0, 1, 0, 0, {0}⟩] (by decide)⟩

/-- C9: init_cells fails with the insufficient-cover configuration error
exactly when the computed cover is not strictly larger than the configured
agent count, and returns the cover without error when it is. -/
theorem C9_insufficient_cover (mdc_count : Nat) (cells : List CCell)
    (damaged : CCell) (allSegs : Finset Nat) (fuel : Nat) (cover : List CCell)
    (h : coverLoop cells damaged allSegs fuel ∅ [] = some cover) :
    (init_cells mdc_count cells damaged allSegs fuel =
        some .insufficientCover ↔ cover.length ≤ mdc_count) ∧
      (mdc_count < cover.length →
        init_cells mdc_count cells damaged allSegs fuel = some (.ok cover)) := by
  unfold init_cells
  rw [h]
  constructor
  · constructor
    · intro he
      by_contra hgt
      push_neg at hgt
      rw [Option.map_some', if_pos hgt] at he
      simp at he
    · intro hle
      rw [Option.map_some', if_neg (by omega)]
  · intro hlt
    rw [Option.map_some', if_pos hlt]

/-- Witness for C9: a two-cell cover with one agent passes the assert; the
same cover with two agents raises the insufficient-cover error. -/
theorem C9_insufficient_cover_witness :
    coverLoop [⟨0, 1, 0, 0, {0}⟩, ⟨1, 1, 0, 0, {1}⟩] ⟨9, 0, 0, 0, ∅⟩ {0, 1} 3 ∅ [] =
        some [⟨0, 1, 0, 0, {0}⟩, ⟨1, 1, 0, 0, {1}⟩] ∧
      (init_cells 2 [⟨0, 1, 0, 0, {0}⟩, ⟨1, 1, 0, 0, {1}⟩] ⟨9, 0, 0, 0, ∅⟩ {0, 1} 3 =
          some .insufficientCover ↔
        ([(⟨0, 1, 0, 0, {0}⟩ : CCell), ⟨1, 1, 0, 0, {1}⟩].length ≤ 2)) :=
  ⟨by decide, (C9_insufficient_cover 2 _ _ _ _ _ (by decide)).1⟩

/-- C4 as stated is false: two eligible cells tie on newly-covered segment
count, the candidate has the lower access count, yet both the comparison
body and the full scan select the cell with the higher access count. -/
theorem C4_counterexample :
    (({0} : Finset Nat) ∪ (⟨0, 1, 0, 0, {0}⟩ : CCell).segs).card =
        (({0} : Finset Nat) ∪ (⟨1, 2, 0, 0, {0}⟩ : CCell).segs).card ∧
      (⟨0, 1, 0, 0, {0}⟩ : CCell).access < (⟨1, 2, 0, 0, {0}⟩ : CCell).access ∧
      updateCandidate {0} ⟨0, 1, 0, 0, {0}⟩ ⟨1, 2, 0, 0, {0}⟩ = ⟨1, 2, 0, 0, {0}⟩ ∧
      selectCandidate ⟨9, 0, 0, 0, ∅⟩ {0} none
          [⟨0, 1, 0, 0, {0}⟩, ⟨1, 2, 0, 0, {0}⟩] = some ⟨1, 2, 0, 0, {0}⟩ := by
  decide

/-- C4 amended: on a tie in newly-covered segment count the scan replaces
the candidate by the cell with the strictly higher access count; when the
access count is not higher it replaces on strictly higher signal-hop count;
failing that, on strictly lower proximity; otherwise the earlier-scanned
candidate is kept.  Each later test applies whenever the earlier one did
not replace, also when the earlier quantities are unequal. -/
theorem C4_amended (sc : Finset Nat) (cand cell : CCell)
    (htie : (sc ∪ cand.segs).card = (sc ∪ cell.segs).card) :
    (cand.access < cell.access → updateCandidate sc cand cell = cell) ∧
      (¬ cand.access < cell.access →
        cand.signal_hop_count < cell.signal_hop_count →
          updateCandidate sc cand cell = cell) ∧
      (¬ cand.access < cell.access →
        ¬ cand.signal_hop_count < cell.signal_hop_count →
          cell.proximity < cand.proximity →
            updateCandidate sc cand cell = cell) ∧
      (¬ cand.access < cell.access →
        ¬ cand.signal_hop_count < cell.signal_hop_count →
          ¬ cell.proximity < cand.proximity →
            updateCandidate sc cand cell = cand) := by
  unfold updateCandidate
  rw [htie]
  refine ⟨?_, ?_, ?_, ?_⟩
  · intro h1
    rw [if_neg (lt_irrefl _), if_pos rfl, if_pos h1]
  · intro h1 h2
    rw [if_neg (lt_irrefl _), if_pos rfl, if_neg h1, if_pos h2]
  · intro h1 h2 h3
    rw [if_neg (lt_irrefl _), if_pos rfl, if_neg h1, if_neg h2, if_pos h3]
  · intro h1 h2 h3
    rw [if_neg (lt_irrefl _), if_pos rfl, if_neg h1, if_neg h2, if_neg h3]

/-- Witness for C4 amended, at the tied pair of the counterexample input
with the roles of the two cells exchanged. -/
theorem C4_amended_witness :
    (({0} : Finset Nat) ∪ (⟨1, 2, 0, 0, {0}⟩ : CCell).segs).card =
        (({0} : Finset Nat) ∪ (⟨0, 1, 0, 0, {0}⟩ : CCell).segs).card ∧
      (¬ (⟨1, 2, 0, 0, {0}⟩ : CCell).access < (⟨0, 1, 0, 0, {0}⟩ : CCell).access →
        ¬ (⟨1, 2, 0, 0, {0}⟩ : CCell).signal_hop_count <
            (⟨0, 1, 0, 0, {0}⟩ : CCell).signal_hop_count →
          ¬ (⟨0, 1, 0, 0, {0}⟩ : CCell).proximity <
              (⟨1, 2, 0, 0, {0}⟩ : CCell).proximity →
            updateCandidate {0} ⟨1, 2, 0, 0, {0}⟩ ⟨0, 1, 0, 0, {0}⟩ =
              ⟨1, 2, 0, 0, {0}⟩) :=
  ⟨by decide, (C4_amended {0} ⟨1, 2, 0, 0, {0}⟩ ⟨0, 1, 0, 0, {0}⟩ (by decide)).2.2.2⟩

/-- C10: the branch-selection dominance test has no zero-divisor guard.
When the total movement energy is zero the selector fails with a division
error before choosing a branch; when movement energy is nonzero and
communication energy is zero the first dominance test already succeeds, so
the second division is never reached with a zero divisor; and for inputs
with both totals nonzero the dominance test is total and the selector
returns a branch. -/
theorem C10_branch_divzero (mech comms r : ℚ) (hr : 0 < r) :
    (mech = 0 → select_branch mech comms r = .error .divByZero) ∧
      (mech ≠ 0 → comms = 0 → select_branch mech comms r = .ok .em) ∧
      (mech ≠ 0 → comms ≠ 0 → ∃ b, select_branch mech comms r = .ok b) ∧
      (∀ lhs rhs : ℚ, lhs ≠ 0 → ∃ b, much_greater_than lhs rhs r = .ok b) := by
  refine ⟨?_, ?_, ?_, ?_⟩
  · intro h
    simp [select_branch, much_greater_than, h]
  · intro hm hc
    have h1 : comms / mech < r := by
      rw [hc, zero_div]
      exact hr
    simp [select_branch, much_greater_than, hm, h1]
  · intro hm hc
    by_cases h1 : comms / mech < r
    · exact ⟨.em, by simp [select_branch, much_greater_than, hm, h1]⟩
    · by_cases h2 : mech / comms < r
      · exact ⟨.ec, by simp [select_branch, much_greater_than, hm, hc, h1, h2]⟩
      · exact ⟨.balanced,
          by simp [select_branch, much_greater_than, hm, hc, h1, h2]⟩
  · intro lhs rhs hl
    exact ⟨decide (rhs / lhs < r), by simp [much_greater_than, hl]⟩

/-- Witness for C10: zero movement energy crashes the selector. -/
theorem C10_branch_divzero_witness :
    (0 : ℚ) < 1 / 5 ∧ select_branch 0 3 (1 / 5) = .error .divByZero :=
  ⟨by norm_num, (C10_branch_divzero 0 3 (1 / 5) (by norm_num)).1 rfl⟩

/-! ### Virtual cluster builder (create_virtual_clusters, lines 178-220) -/

/-- A virtual cluster as seen by the merge loop: its member cell ids. -/
structure VC : Type where
  cells : List Nat
deriving DecidableEq, Repr

/-- The merge loop of create_virtual_clusters (lines 205-208), fueled:
keep combining while at least mdc_count clusters remain.  The pairwise
merge primitive combine_clusters (core/cluster.py, not under src/) is a
parameter; per the spec's section 6 contract it combines the two nearest
clusters into one. -/
def combineLoop (combine : List VC → List VC) (mdc_count : Nat) :
    Nat → List VC → Option (List VC)
  | 0, _ => none
  | fuel + 1, vcs =>
    if mdc_count ≤ vcs.length then combineLoop combine mdc_count fuel (combine vcs)
    else some vcs

/-- The cluster-count part of create_virtual_clusters (lines 195-208): one
singleton virtual cluster per cover cell, then the merge loop. -/
def create_virtual_clusters (combine : List VC → List VC) (mdc_count : Nat)
    (cover : List Nat) (fuel : Nat) : Option (List VC) :=
  combineLoop combine mdc_count fuel (cover.map fun cid => ⟨[cid]⟩)

theorem combineLoop_length (combine : List VC → List VC) (mdc_count : Nat)
    (hcombine : ∀ l, 2 ≤ l.length → (combine l).length + 1 = l.length)
    (hmdc : 2 ≤ mdc_count) :
    ∀ (fuel : Nat) (vcs : List VC), mdc_count - 1 ≤ vcs.length →
      vcs.length < fuel →
      ∃ out, combineLoop combine mdc_count fuel vcs = some out ∧
        out.length = mdc_count - 1 := by
  intro fuel
  induction fuel with
  | zero => intro vcs _ hf; omega
  | succ n ih =>
    intro vcs hlo hf
    rw [combineLoop]
    by_cases hrun : mdc_count ≤ vcs.length
    · rw [if_pos hrun]
      have hlen : (combine vcs).length + 1 = vcs.length :=
        hcombine vcs (le_trans hmdc hrun)
      exact ih (combine vcs) (by omega) (by omega)
    · rw [if_neg hrun]
      exact ⟨vcs, rfl, by omega⟩

/-- C6: for every cover of size at least the configured agent count (with
at least two agents configured, so the pairwise merge is applicable), the
virtual cluster builder produces exactly mdc_count - 1 virtual clusters. -/
theorem C6_virtual_cluster_count (combine : List VC → List VC)
    (mdc_count fuel : Nat) (cover : List Nat)
    (hcombine : ∀ l, 2 ≤ l.length → (combine l).length + 1 = l.length)
    (hmdc : 2 ≤ mdc_count) (hcover : mdc_count ≤ cover.length)
    (hfuel : cover.length < fuel) :
    ∃ out, create_virtual_clusters combine mdc_count cover fuel = some out ∧
      out.length = mdc_count - 1 := by
  unfold create_virtual_clusters
  refine combineLoop_length combine mdc_count hcombine hmdc fuel _ ?_ ?_ <;>
    rw [List.length_map] <;> omega

/-- A merge function combining the first two clusters, used to witness C6. -/
def mergeFirstTwo : List VC → List VC
  | a :: b :: rest => ⟨a.cells ++ b.cells⟩ :: rest
  | l => l

/-- Witness for C6 with two cover cells and two agents. -/
theorem C6_virtual_cluster_count_witness :
    (∀ l, 2 ≤ l.length → (mergeFirstTwo l).length + 1 = l.length) ∧
      2 ≤ 2 ∧ 2 ≤ [10, 11].length ∧ [10, 11].length < 3 ∧
      ∃ out, create_virtual_clusters mergeFirstTwo 2 [10, 11] 3 = some out ∧
        out.length = 2 - 1 :=
  ⟨fun l hl =>
    match l, hl with
    | _ :: _ :: _, _ => by simp [mergeFirstTwo],
    by decide, by decide, by decide,
    C6_virtual_cluster_count mergeFirstTwo 2 3 [10, 11]
      (fun l hl =>
        match l, hl with
        | _ :: _ :: _, _ => by simp [mergeFirstTwo])
      (by decide) (by decide) (by decide)⟩

/-! ### Polar sort and relabeling (_polar_angle, _polar_sort and the
relabeling loop of create_virtual_clusters, lines 172-214).  A virtual
cluster enters this phase only through its location (the external centroid),
so clusters are modelled by their locations here; the relabeling produces
id-location pairs. -/

/-- Python tuple comparison (x, then y), as used by min with
itemgetter(0, 1) at line 187. -/
def lexLt (p q : Pt) : Prop := p.1 < q.1 ∨ (p.1 = q.1 ∧ p.2 < q.2)

instance lexLt.decidable (p q : Pt) : Decidable (lexLt p q) := by
  unfold lexLt
  infer_instance

theorem lexLt_iff (p q : Pt) : lexLt p q ↔ toLex p < toLex q :=
  (Prod.Lex.lt_iff p q).symm

/-- Python min over points by (x, then y): the first lexicographically
minimal point; none on an empty list. -/
def lexMinPt : List Pt → Option Pt
  | [] => none
  | p :: ps => some (ps.foldl (fun best q => if lexLt q best then q else best) p)

theorem foldl_lexMin_spec (as : List Pt) : ∀ b : Pt,
    ((as.foldl (fun best q => if lexLt q best then q else best) b = b ∨
        as.foldl (fun best q => if lexLt q best then q else best) b ∈ as) ∧
      toLex (as.foldl (fun best q => if lexLt q best then q else best) b) ≤
        toLex b ∧
      ∀ q ∈ as,
        toLex (as.foldl (fun best q => if lexLt q best then q else best) b) ≤
          toLex q) := by
  induction as with
  | nil => intro b; exact ⟨Or.inl rfl, le_refl _, by simp⟩
  | cons q rest ih =>
    intro b
    simp only [List.foldl_cons]
    by_cases hq : lexLt q b
    · rw [if_pos hq]
      obtain ⟨hmem, hle, hall⟩ := ih q
      refine ⟨?_, ?_, ?_⟩
      · rcases hmem with h | h
        · exact Or.inr (by rw [h]; exact List.mem_cons_self q rest)
        · exact Or.inr (List.mem_cons_of_mem q h)
      · exact hle.trans (le_of_lt ((lexLt_iff q b).mp hq))
      · intro x hx
        rw [List.mem_cons] at hx
        rcases hx with rfl | hx
        · exact hle
        · exact hall x hx
    · rw [if_neg hq]
      obtain ⟨hmem, hle, hall⟩ := ih b
      refine ⟨?_, hle, ?_⟩
      · rcases hmem with h | h
        · exact Or.inl h
        · exact Or.inr (List.mem_cons_of_mem q h)
      · intro x hx
        rw [List.mem_cons] at hx
        rcases hx with rfl | hx
        · have hbq : toLex b ≤ toLex x := by
            rw [← not_lt, ← lexLt_iff]
            exact hq
          exact hle.trans hbq
        · exact hall x hx

theorem lexMinPt_spec (l : List Pt) (p : Pt) (h : lexMinPt l = some p) :
    p ∈ l ∧ ∀ q ∈ l, ¬ lexLt q p := by
  cases l with
  | nil => cases h
  | cons a as =>
    rw [lexMinPt] at h
    obtain ⟨hmem, hle, hall⟩ := foldl_lexMin_spec as a
    cases h
    refine ⟨?_, ?_⟩
    · rcases hmem with h | h
      · rw [h]
        exact List.mem_cons_self a as
      · exact List.mem_cons_of_mem a h
    · intro q hq
      rw [lexLt_iff, not_lt]
      rw [List.mem_cons] at hq
      rcases hq with rfl | hq
      · exact hle
      · exact hall q hq

/-- numpy arctan2(y, x) (line 175): the polar angle of the vector (x, y),
in the interval (-pi, pi]. -/
noncomputable def arctan2 (v : Pt) : ℝ :=
  if 0 < v.1 then Real.arctan ((v.2 : ℝ) / (v.1 : ℝ))
  else if v.1 < 0 ∧ 0 ≤ v.2 then Real.arctan ((v.2 : ℝ) / (v.1 : ℝ)) + Real.pi
  else if v.1 < 0 ∧ v.2 < 0 then Real.arctan ((v.2 : ℝ) / (v.1 : ℝ)) - Real.pi
  else if 0 < v.2 then Real.pi / 2
  else if v.2 < 0 then -(Real.pi / 2)
  else 0

/-- The right half-plane (closed upward on the y-axis): the region every
vector from the lexicographically minimal point to another point lies in. -/
def rightHalf (v : Pt) : Prop := 0 < v.1 ∨ (v.1 = 0 ∧ 0 ≤ v.2)

/-- Rational surrogate sort key for arctan2 on the right half-plane: the
slope y/x, with top for the straight-up direction (angle pi/2).  Rational
division by zero yields 0, which matches arctan2 (0, 0) = 0. -/
def angleKey (v : Pt) : WithTop ℚ :=
  if v.1 = 0 ∧ 0 < v.2 then ⊤ else ((v.2 / v.1 : ℚ) : WithTop ℚ)

theorem arctan2_eq_pi_div_two {v : Pt} (h : v.1 = 0 ∧ 0 < v.2) :
    arctan2 v = Real.pi / 2 := by
  obtain ⟨h1, h2⟩ := h
  rw [arctan2]
  rw [if_neg (by rw [h1]; exact lt_irrefl 0), if_neg (by rw [h1]; simp),
    if_neg (by rw [h1]; simp), if_pos h2]

theorem arctan2_eq_arctan {v : Pt} (hv : rightHalf v)
    (hnt : ¬ (v.1 = 0 ∧ 0 < v.2)) :
    arctan2 v = Real.arctan ((v.2 / v.1 : ℚ) : ℝ) := by
  rcases hv with hx | ⟨hx, hy⟩
  · rw [arctan2, if_pos hx]
    push_cast
    rfl
  · have hy0 : v.2 = 0 := by
      by_contra hne
      exact hnt ⟨hx, lt_of_le_of_ne hy (Ne.symm hne)⟩
    rw [arctan2, if_neg (by rw [hx]; exact lt_irrefl 0),
      if_neg (by rw [hx]; simp), if_neg (by rw [hx]; simp),
      if_neg (by rw [hy0]; exact lt_irrefl 0),
      if_neg (by rw [hy0]; exact lt_irrefl 0)]
    rw [hx, hy0]
    norm_num [Real.arctan_zero]

theorem angleKey_le_iff {u v : Pt} (hu : rightHalf u) (hv : rightHalf v) :
    (angleKey u ≤ angleKey v ↔ arctan2 u ≤ arctan2 v) := by
  by_cases hut : u.1 = 0 ∧ 0 < u.2 <;> by_cases hvt : v.1 = 0 ∧ 0 < v.2
  · unfold angleKey
    rw [if_pos hut, if_pos hvt, arctan2_eq_pi_div_two hut,
      arctan2_eq_pi_div_two hvt]
    exact iff_of_true le_top (le_refl _)
  · unfold angleKey
    rw [if_pos hut, if_neg hvt, arctan2_eq_pi_div_two hut,
      arctan2_eq_arctan hv hvt]
    exact iff_of_false (WithTop.not_top_le_coe _)
      (not_le.mpr (Real.arctan_lt_pi_div_two _))
  · unfold angleKey
    rw [if_neg hut, if_pos hvt, arctan2_eq_arctan hu hut,
      arctan2_eq_pi_div_two hvt]
    exact iff_of_true le_top (le_of_lt (Real.arctan_lt_pi_div_two _))
  · unfold angleKey
    rw [if_neg hut, if_neg hvt, arctan2_eq_arctan hu hut,
      arctan2_eq_arctan hv hvt]
    rw [WithTop.coe_le_coe, Real.arctan_strictMono.le_iff_le, Rat.cast_le]

/-- The angular comparison used to model the argsort over arctan2 values at
line 190: compare the rational surrogate keys of the vectors from the
origin.  On the right half-plane this orders exactly like arctan2. -/
def angRel (origin : Pt) (c d : Pt) : Prop :=
  angleKey (c - origin) ≤ angleKey (d - origin)

instance angRel.decidable (origin : Pt) : DecidableRel (angRel origin) :=
  fun c d => inferInstanceAs (Decidable (angleKey (c - origin) ≤ angleKey (d - origin)))

instance angRel.isTotal (origin : Pt) : IsTotal Pt (angRel origin) :=
  ⟨fun c d => le_total (angleKey (c - origin)) (angleKey (d - origin))⟩

instance angRel.isTrans (origin : Pt) : IsTrans Pt (angRel origin) :=
  ⟨fun _ _ _ hab hbc => le_trans hab hbc⟩

instance angRel.isRefl (origin : Pt) : IsRefl Pt (angRel origin) :=
  ⟨fun c => le_refl (angleKey (c - origin))⟩

/-- _polar_sort (lines 178-193): find the lexicographically smallest
location, then sort the clusters by polar angle of their offsets from it.
numpy's argsort is modelled by a sort over the equivalent rational keys;
its ordering of equal-angle clusters is unspecified in the source, and no
claim depends on it. -/
def polar_sort (clusters : List Pt) : List Pt :=
  match lexMinPt clusters with
  | none => []
  | some origin => clusters.insertionSort (angRel origin)

/-- The relabeling loop of create_virtual_clusters (lines 213-214):
cluster ids 0, 1, ... are assigned in sorted order. -/
def relabelFrom : Nat → List Pt → List (Nat × Pt)
  | _, [] => []
  | i, p :: rest => (i, p) :: relabelFrom (i + 1) rest

theorem relabelFrom_map_fst :
    ∀ (l : List Pt) (i : Nat),
      (relabelFrom i l).map Prod.fst = List.range' i l.length := by
  intro l
  induction l with
  | nil => intro i; rfl
  | cons p rest ih =>
    intro i
    rw [relabelFrom, List.map_cons, ih (i + 1), List.length_cons, List.range']

theorem rightHalf_sub_of_le {o q : Pt} (h : toLex o ≤ toLex q) :
    rightHalf (q - o) := by
  rw [Prod.Lex.le_iff] at h
  rcases h with h | ⟨h1, h2⟩
  · exact Or.inl (by rw [Prod.fst_sub]; exact sub_pos.mpr h)
  · exact Or.inr ⟨by rw [Prod.fst_sub, h1, sub_self],
      by rw [Prod.snd_sub]; exact sub_nonneg.mpr h2⟩

/-- C7: with the lexicographically smallest location as origin, the polar
sort is a permutation of the clusters, the relabeling assigns exactly the
ids 0..k-1 in sorted order, the origin is the lexicographic minimum, and
the sorted sequence is monotone in polar angle (arctan2) around it. -/
theorem C7_polar_relabel (clusters : List Pt) (origin : Pt)
    (ho : lexMinPt clusters = some origin) :
    ((relabelFrom 0 (polar_sort clusters)).map Prod.fst =
        List.range clusters.length) ∧
      (polar_sort clusters).Perm clusters ∧
      origin ∈ clusters ∧ (∀ q ∈ clusters, ¬ lexLt q origin) ∧
      ∀ i j : Fin (polar_sort clusters).length, i ≤ j →
        arctan2 ((polar_sort clusters).get i - origin) ≤
          arctan2 ((polar_sort clusters).get j - origin) := by
  obtain ⟨hmem, hmin⟩ := lexMinPt_spec clusters origin ho
  have hperm : (polar_sort clusters).Perm clusters := by
    rw [polar_sort, ho]
    exact List.perm_insertionSort (angRel origin) clusters
  have hlen : (polar_sort clusters).length = clusters.length :=
    hperm.length_eq
  have hrh : ∀ q ∈ polar_sort clusters, rightHalf (q - origin) := by
    intro q hq
    have hq2 : q ∈ clusters := hperm.mem_iff.mp hq
    refine rightHalf_sub_of_le ?_
    rw [← not_lt, ← lexLt_iff]
    exact hmin q hq2
  refine ⟨?_, hperm, hmem, hmin, ?_⟩
  · rw [relabelFrom_map_fst, hlen, List.range_eq_range']
  · intro i j hij
    have hsorted : (polar_sort clusters).Sorted (angRel origin) := by
      rw [polar_sort, ho]
      exact List.sorted_insertionSort (angRel origin) clusters
    have hrel : angRel origin ((polar_sort clusters).get i)
        ((polar_sort clusters).get j) :=
      hsorted.rel_get_of_le hij
    exact (angleKey_le_iff (hrh _ (List.get_mem (polar_sort clusters) i.1 i.2))
      (hrh _ (List.get_mem (polar_sort clusters) j.1 j.2))).mp hrel

/-- Witness for C7 on three concrete clusters. -/
theorem C7_polar_relabel_witness :
    lexMinPt [(3, 1), (0, 0), (2, 5)] = some (0, 0) ∧
      ((relabelFrom 0 (polar_sort [(3, 1), (0, 0), (2, 5)])).map Prod.fst =
          List.range 3 ∧
        (polar_sort [(3, 1), (0, 0), (2, 5)]).Perm [(3, 1), (0, 0), (2, 5)] ∧
        ((0 : ℚ), (0 : ℚ)) ∈ [((3 : ℚ), (1 : ℚ)), (0, 0), (2, 5)] ∧
        (∀ q ∈ [((3 : ℚ), (1 : ℚ)), (0, 0), (2, 5)], ¬ lexLt q (0, 0)) ∧
        ∀ i j : Fin (polar_sort [((3 : ℚ), (1 : ℚ)), (0, 0), (2, 5)]).length,
          i ≤ j →
          arctan2 ((polar_sort [((3 : ℚ), (1 : ℚ)), (0, 0), (2, 5)]).get i - (0, 0)) ≤
            arctan2 ((polar_sort [((3 : ℚ), (1 : ℚ)), (0, 0), (2, 5)]).get j - (0, 0))) :=
  ⟨by decide, C7_polar_relabel [(3, 1), (0, 0), (2, 5)] (0, 0) (by decide)⟩

/-! ### Energy balancer (handle_large_ec, lines 236-282, and optimization,
lines 441-522).

Cell and cluster behaviour that lives in flower/cluster.py (not under src/)
is modelled from the spec: a cluster's membership is an ordered list (the
source manipulates plain Python lists, line 344), add appends at the tail
(the spec's recent pointer is the last cell added), and remove deletes the
first occurrence (Python list.remove).  The external energy model is a
parameter: a pure function of the current state and a cluster id. -/

/-- A cell as seen by the balancer: identity and location. -/
structure BCell : Type where
  bid : Nat
  loc : Pt
deriving DecidableEq, Repr

/-- A cluster as seen by the balancer: id, member cells in list order, and
the anchor reference point used by the full balancing pass. -/
structure BCluster : Type where
  cluster_id : Int
  nodes : List BCell
  anchor : Pt
deriving DecidableEq, Repr

/-- Balancer state: the real clusters and the hub. -/
structure BState : Type where
  clusters : List BCluster
  hub : BCluster
deriving DecidableEq, Repr

/-- all_clusters = self.clusters + [self.hub] (lines 242 and 443). -/
def BState.all (st : BState) : List BCluster := st.clusters ++ [st.hub]

/-- The per-cluster energies, in all_clusters order. -/
def energies (energy : BState → Int → ℚ) (st : BState) : List ℚ :=
  st.all.map fun c => energy st c.cluster_id

/-- The square of np.std (population standard deviation).  The source
compares standard deviations; comparisons of their squares agree. -/
def stdevSq (l : List ℚ) : ℚ :=
  ((l.map fun x => (x - l.sum / l.length) ^ 2).sum) / l.length

/-- Apply a mutation to the cluster object with the given id (clusters are
manipulated by reference in the source; ids identify them here). -/
def updateCluster (st : BState) (cid : Int) (f : BCluster → BCluster) : BState :=
  { clusters := st.clusters.map fun c => if c.cluster_id = cid then f c else c,
    hub := if st.hub.cluster_id = cid then f st.hub else st.hub }

/-- cluster.remove(cell): delete the first occurrence from the list. -/
def removeCell (st : BState) (cid : Int) (x : BCell) : BState :=
  updateCluster st cid fun c => { c with nodes := c.nodes.erase x }

/-- cluster.add(cell): append at the tail. -/
def addCell (st : BState) (cid : Int) (x : BCell) : BState :=
  updateCluster st cid fun c => { c with nodes := c.nodes ++ [x] }

/-- Outcome of one balancer round. -/
inductive RoundResult : Type
  | next (st : BState)
  | stop (st : BState)
  | crash
deriving DecidableEq, Repr

/-- One round of the neighbor-restricted balancer handle_large_ec (lines
245-282): find the most expensive cluster, move its cell nearest to the
cheapest id-adjacent neighbor into that neighbor, then keep the move only
on strict standard-deviation decrease; otherwise revert and stop.  crash
covers the Python exceptions on an empty min or an empty pair search. -/
def ecRound (energy : BState → Int → ℚ) (st : BState) : RoundResult :=
  let stdev := stdevSq (energies energy st)
  match pyMax (fun c => energy st c.cluster_id) st.all with
  | none => .crash
  | some c_most =>
    let neighbors := st.all.filter fun c =>
      (c.cluster_id - c_most.cluster_id).natAbs = 1
    match pyMin (fun c => energy st c.cluster_id) neighbors with
    | none => .crash
    | some neighbor =>
      match closest_nodes BCell.loc BCell.loc c_most.nodes neighbor.nodes with
      | none => .crash
      | some (c_out, _) =>
        let st1 := addCell (removeCell st c_most.cluster_id c_out)
          neighbor.cluster_id c_out
        if stdev ≤ stdevSq (energies energy st1) then
          .stop (addCell (removeCell st1 neighbor.cluster_id c_out)
            c_most.cluster_id c_out)
        else .next st1

/-- The nodes of the cluster with the given id (first match). -/
def nodesOf (st : BState) (cid : Int) : List BCell :=
  ((st.all.find? fun c => c.cluster_id = cid).map BCluster.nodes).getD []

/-- One round of the full balancer optimization (lines 446-522), with its
three-way branch on whether the hub is the cheapest or the most expensive
cluster; in the third branch the shrink of c_most reads the grown state, as
the source computes closest_nodes after the first move.  Object identity
(self.hub == c_least) is modelled by cluster-id equality. -/
def optRound (energy : BState → Int → ℚ) (st : BState) : RoundResult :=
  let stdev := stdevSq (energies energy st)
  match pyMin (fun c => energy st c.cluster_id) st.all,
      pyMax (fun c => energy st c.cluster_id) st.all with
  | some c_least, some c_most =>
    if st.hub.cluster_id = c_least.cluster_id then
      match closest_nodes (fun p => p) BCell.loc [c_most.anchor] c_most.nodes with
      | none => .crash
      | some (_, c_in) =>
        let st1 := addCell (removeCell st c_most.cluster_id c_in)
          st.hub.cluster_id c_in
        if stdev ≤ stdevSq (energies energy st1) then
          .stop (addCell (removeCell st1 st.hub.cluster_id c_in)
            c_most.cluster_id c_in)
        else .next st1
    else if st.hub.cluster_id = c_most.cluster_id then
      match closest_nodes BCell.loc (fun p => p) st.hub.nodes [c_least.anchor] with
      | none => .crash
      | some (c_out, _) =>
        let st1 := addCell (removeCell st st.hub.cluster_id c_out)
          c_least.cluster_id c_out
        if stdev ≤ stdevSq (energies energy st1) then
          .stop (addCell (removeCell st1 c_least.cluster_id c_out)
            st.hub.cluster_id c_out)
        else .next st1
    else
      match closest_nodes BCell.loc (fun p => p) st.hub.nodes [c_least.anchor] with
      | none => .crash
      | some (c_out, _) =>
        let st1 := addCell (removeCell st st.hub.cluster_id c_out)
          c_least.cluster_id c_out
        match closest_nodes (fun p => p) BCell.loc [c_most.anchor]
            (nodesOf st1 c_most.cluster_id) with
        | none => .crash
        | some (_, c_in) =>
          let st2 := addCell (removeCell st1 c_most.cluster_id c_in)
            st.hub.cluster_id c_in
          if stdev ≤ stdevSq (energies energy st2) then
            .stop (addCell (removeCell (addCell (removeCell st2
              c_least.cluster_id c_out) st.hub.cluster_id c_out)
              st.hub.cluster_id c_in) c_most.cluster_id c_in)
          else .next st2
  | _, _ => .crash

/-- Outcome of a full balancer run. -/
inductive BalanceResult : Type
  | done (st : BState) (rounds : Nat)
  | lost (rounds : Nat)
  | crash
  | outOfFuel
deriving DecidableEq, Repr

/-- The handle_large_ec loop (lines 244-282): the round counter starts at
zero, is checked against 100 at the top of each iteration (raising the
FlowerError when it exceeds it), and is incremented after each move. -/
def handle_large_ec_loop (energy : BState → Int → ℚ) :
    Nat → Nat → BState → BalanceResult
  | 0, _, _ => .outOfFuel
  | fuel + 1, r, st =>
    if 100 < r then .lost r
    else
      match ecRound energy st with
      | .crash => .crash
      | .stop st1 => .done st1 (r + 1)
      | .next st1 => handle_large_ec_loop energy fuel (r + 1) st1

/-- The optimization loop (lines 441-522): identical counter discipline
(the source computes the round's extremes before the counter check, but
those computations are pure, so the guard commutes with them). -/
def optimization_loop (energy : BState → Int → ℚ) :
    Nat → Nat → BState → BalanceResult
  | 0, _, _ => .outOfFuel
  | fuel + 1, r, st =>
    if 100 < r then .lost r
    else
      match optRound energy st with
      | .crash => .crash
      | .stop st1 => .done st1 (r + 1)
      | .next st1 => optimization_loop energy fuel (r + 1) st1

theorem stdevSq_triple (a : ℚ) : stdevSq [0, a, 0] = 2 * a ^ 2 / 9 := by
  show ((0 - (0 + (a + (0 + 0))) / 3) ^ 2 +
      ((a - (0 + (a + (0 + 0))) / 3) ^ 2 +
        ((0 - (0 + (a + (0 + 0))) / 3) ^ 2 + 0))) / 3 = 2 * a ^ 2 / 9
  ring

/-! ### C8: the drain instance exceeding 100 balancer rounds.  The energy
model is external, so any pure function of the state is an admissible
instance: this one reports cluster 1's cell count and zero elsewhere, which
makes every round move one cell from cluster 1 to cluster 0 and strictly
shrink the standard deviation, so the loop only stops via its counter. -/

/-- Energy model for the drain instance. -/
def drainEnergy : BState → Int → ℚ := fun st cid =>
  if cid = 1 then ((nodesOf st 1).length : ℚ) else 0

def c8cell (i : Nat) : BCell := ⟨i, (0, 0)⟩

def c8cells : List BCell := (List.range 102).map c8cell

/-- Drain states: cluster 0 holds zs, cluster 1 holds xs, the hub is far
away in id space. -/
def c8state (zs xs : List BCell) : BState :=
  ⟨[⟨0, zs, (0, 0)⟩, ⟨1, xs, (0, 0)⟩], ⟨9, [c8cell 900], (0, 0)⟩⟩

def c8start : BState := c8state [c8cell 800] c8cells

theorem ec_round_drain (zs xs : List BCell) (x : BCell) (hzs : zs ≠ [])
    (hl1 : ∀ c ∈ x :: xs, c.loc = (0, 0)) (hl2 : ∀ c ∈ zs, c.loc = (0, 0)) :
    ecRound drainEnergy (c8state zs (x :: xs)) =
      .next (c8state (zs ++ [x]) xs) := by
  obtain ⟨z, zs', rfl⟩ : ∃ z zs', zs = z :: zs' := by
    cases zs with
    | nil => exact absurd rfl hzs
    | cons z zs' => exact ⟨z, zs', rfl⟩
  have hdist : ∀ p ∈ allPairs (x :: xs) (z :: zs'),
      dist2 (BCell.loc p.1) (BCell.loc p.2) = 0 := by
    intro p hp
    rw [mem_allPairs_iff] at hp
    rw [hl1 _ hp.1, hl2 _ hp.2]
    norm_num [dist2]
  have hcn : closest_nodes BCell.loc BCell.loc (x :: xs) (z :: zs') =
      some (x, z) := by
    rw [closest_nodes]
    have hap : allPairs (x :: xs) (z :: zs') =
        (x, z) :: ((zs'.map fun b => (x, b)) ++ allPairs xs (z :: zs')) := by
      rw [allPairs_cons, List.map_cons, List.cons_append]
    rw [hap]
    refine pyMin_keep_first _ _ _ ?_
    intro p hp
    have hp' : p ∈ allPairs (x :: xs) (z :: zs') := by
      rw [hap]
      exact List.mem_cons_of_mem _ hp
    have hxz : (x, z) ∈ allPairs (x :: xs) (z :: zs') := by
      rw [hap]
      exact List.mem_cons_self _ _
    rw [hdist p hp', hdist (x, z) hxz]
    exact lt_irrefl 0
  have h01 : drainEnergy (c8state (z :: zs') (x :: xs)) ((0 : Int)) <
      drainEnergy (c8state (z :: zs') (x :: xs)) 1 := by
    show (0 : ℚ) < ((x :: xs).length : ℚ)
    exact_mod_cast Nat.succ_pos xs.length
  have h19 : ¬ drainEnergy (c8state (z :: zs') (x :: xs)) ((1 : Int)) <
      drainEnergy (c8state (z :: zs') (x :: xs)) 9 := by
    show ¬ ((x :: xs).length : ℚ) < 0
    exact not_lt.mpr (by positivity)
  have hcond : ¬ stdevSq (energies drainEnergy (c8state (z :: zs') (x :: xs))) ≤
      stdevSq (energies drainEnergy (c8state (z :: zs' ++ [x]) xs)) := by
    have he1 : energies drainEnergy (c8state (z :: zs') (x :: xs)) =
        [0, ((x :: xs).length : ℚ), 0] := rfl
    have he2 : energies drainEnergy (c8state (z :: zs' ++ [x]) xs) =
        [0, (xs.length : ℚ), 0] := rfl
    rw [he1, he2, stdevSq_triple, stdevSq_triple]
    have hn : (0 : ℚ) ≤ (xs.length : ℚ) := by positivity
    have hlen : ((x :: xs).length : ℚ) = (xs.length : ℚ) + 1 := by
      push_cast [List.length_cons]
      ring
    rw [hlen, not_le]
    nlinarith [hn]
  have hall : (c8state (z :: zs') (x :: xs)).all =
      [⟨0, z :: zs', (0, 0)⟩, ⟨1, x :: xs, (0, 0)⟩,
        ⟨9, [c8cell 900], (0, 0)⟩] := rfl
  have hmax : pyMax (fun c => drainEnergy (c8state (z :: zs') (x :: xs)) c.cluster_id)
      (c8state (z :: zs') (x :: xs)).all = some ⟨1, x :: xs, (0, 0)⟩ := by
    rw [hall]
    exact pyMax_three _ _ _ _ h01 h19
  have hfil : ((c8state (z :: zs') (x :: xs)).all.filter fun c =>
      (c.cluster_id - (1 : Int)).natAbs = 1) = [⟨0, z :: zs', (0, 0)⟩] := by
    rw [hall]
    norm_num [List.filter]
  rw [ecRound, hmax]
  dsimp only
  rw [hfil]
  have hmin : pyMin (fun c => drainEnergy (c8state (z :: zs') (x :: xs)) c.cluster_id)
      [(⟨0, z :: zs', (0, 0)⟩ : BCluster)] = some ⟨0, z :: zs', (0, 0)⟩ := rfl
  rw [hmin]
  dsimp only
  rw [hcn]
  dsimp only
  have hst1 : addCell (removeCell (c8state (z :: zs') (x :: xs)) 1 x) 0 x =
      c8state (z :: zs' ++ [x]) xs := by
    simp [addCell, removeCell, updateCluster, c8state, List.erase_cons_head]
  rw [hst1, if_neg hcond]

theorem c8_loop : ∀ (fuel r : Nat) (zs xs : List BCell), r ≤ 101 →
    101 - r ≤ xs.length → 102 - r < fuel →
    (∀ c ∈ xs, c.loc = (0, 0)) → (∀ c ∈ zs, c.loc = (0, 0)) → zs ≠ [] →
    handle_large_ec_loop drainEnergy fuel r (c8state zs xs) = .lost 101 := by
  intro fuel
  induction fuel with
  | zero => intro r zs xs hr _ hf _ _ _; omega
  | succ n ih =>
    intro r zs xs hr hx hf hl1 hl2 hzs
    rw [handle_large_ec_loop]
    by_cases hguard : 100 < r
    · rw [if_pos hguard]
      have : r = 101 := by omega
      rw [this]
    · rw [if_neg hguard]
      cases xs with
      | nil => simp at hx; omega
      | cons x xs' =>
        rw [ec_round_drain zs xs' x hzs hl1 hl2]
        refine ih (r + 1) (zs ++ [x]) xs' (by omega) (by
          simp only [List.length_cons] at hx
          omega) (by omega) (fun c hc => hl1 c (List.mem_cons_of_mem x hc)) ?_ (by simp)
        intro c hc
        rw [List.mem_append] at hc
        rcases hc with hc | hc
        · exact hl2 c hc
        · rw [List.mem_singleton] at hc
          rw [hc]
          exact hl1 x (List.mem_cons_self x xs')

/-- C8 as stated is false: under this admissible energy model the
neighbor-restricted balancer completes 101 strictly-improving rounds -
more than the claimed 100 - and only then raises the FlowerError, at the
top of what would be the 102nd round. -/
theorem C8_counterexample :
    handle_large_ec_loop drainEnergy 103 0 c8start = .lost 101 ∧ 100 < 101 := by
  refine ⟨?_, by omega⟩
  refine c8_loop 103 0 [c8cell 800] c8cells (by omega) ?_ (by omega) ?_ ?_ (by simp)
  · show 101 ≤ c8cells.length
    rw [c8cells, List.length_map, List.length_range]
    omega
  · intro c hc
    rw [c8cells, List.mem_map] at hc
    obtain ⟨i, _, rfl⟩ := hc
    rfl
  · intro c hc
    rw [List.mem_singleton] at hc
    rw [hc]
    rfl

theorem ec_loop_bound (energy : BState → Int → ℚ) : ∀ (fuel r : Nat)
    (st : BState), r ≤ 101 →
    (∀ n, handle_large_ec_loop energy fuel r st = .lost n → n = 101) ∧
      (∀ st1 n, handle_large_ec_loop energy fuel r st = .done st1 n →
        n ≤ 101) := by
  intro fuel
  induction fuel with
  | zero =>
    intro r st _
    exact ⟨fun n h => (nomatch h), fun st1 n h => (nomatch h)⟩
  | succ m ih =>
    intro r st hr
    rw [handle_large_ec_loop]
    by_cases hguard : 100 < r
    · rw [if_pos hguard]
      exact ⟨fun n h => by cases h; omega, fun st1 n h => (nomatch h)⟩
    · rw [if_neg hguard]
      cases hec : ecRound energy st with
      | crash => exact ⟨fun n h => (nomatch h), fun st1 n h => (nomatch h)⟩
      | stop st2 =>
        exact ⟨fun n h => (nomatch h), fun st1 n h => by cases h; omega⟩
      | next st2 => exact ih (r + 1) st2 (by omega)

theorem opt_loop_bound (energy : BState → Int → ℚ) : ∀ (fuel r : Nat)
    (st : BState), r ≤ 101 →
    (∀ n, optimization_loop energy fuel r st = .lost n → n = 101) ∧
      (∀ st1 n, optimization_loop energy fuel r st = .done st1 n →
        n ≤ 101) := by
  intro fuel
  induction fuel with
  | zero =>
    intro r st _
    exact ⟨fun n h => (nomatch h), fun st1 n h => (nomatch h)⟩
  | succ m ih =>
    intro r st hr
    rw [optimization_loop]
    by_cases hguard : 100 < r
    · rw [if_pos hguard]
      exact ⟨fun n h => by cases h; omega, fun st1 n h => (nomatch h)⟩
    · rw [if_neg hguard]
      cases hec : optRound energy st with
      | crash => exact ⟨fun n h => (nomatch h), fun st1 n h => (nomatch h)⟩
      | stop st2 =>
        exact ⟨fun n h => (nomatch h), fun st1 n h => by cases h; omega⟩
      | next st2 => exact ih (r + 1) st2 (by omega)

/-- C8 amended: both balancer variants are bounded at 101 rounds, not 100.
A run that raises the FlowerError has completed exactly 101 rounds (the
counter check r > 100 sits at the top of the loop and the counter counts
completed rounds), and a terminating run completes at most 101 rounds. -/
theorem C8_amended (energy : BState → Int → ℚ) (fuel : Nat) (st : BState) :
    (∀ n, handle_large_ec_loop energy fuel 0 st = .lost n → n = 101) ∧
      (∀ st1 n, handle_large_ec_loop energy fuel 0 st = .done st1 n → n ≤ 101) ∧
      (∀ n, optimization_loop energy fuel 0 st = .lost n → n = 101) ∧
      (∀ st1 n, optimization_loop energy fuel 0 st = .done st1 n → n ≤ 101) := by
  obtain ⟨h1, h2⟩ := ec_loop_bound energy fuel 0 st (by omega)
  obtain ⟨h3, h4⟩ := opt_loop_bound energy fuel 0 st (by omega)
  exact ⟨h1, h2, h3, h4⟩

set_option maxRecDepth 10000 in
/-- Witness for C8 amended: a constant-zero energy model reverts in the
first round, so the loop terminates after exactly one round. -/
theorem C8_amended_witness :
    handle_large_ec_loop (fun _ _ => 0) 5 0 (c8state [c8cell 1] [c8cell 2]) =
        .done (c8state [c8cell 1] [c8cell 2]) 1 ∧ 1 ≤ 101 :=
  ⟨by with_unfolding_all decide,
    (C8_amended (fun _ _ => 0) 5 (c8state [c8cell 1] [c8cell 2])).2.1
      (c8state [c8cell 1] [c8cell 2]) 1 (by with_unfolding_all decide)⟩

/-! ### C2: revert semantics of the balancer rounds -/

theorem perm_erase_append {α : Type} [DecidableEq α] {l : List α} {x : α}
    (hx : x ∈ l) : (l.erase x ++ [x]).Perm l :=
  (List.perm_append_singleton x (l.erase x)).trans (List.perm_cons_erase hx).symm

theorem erase_append_of_not_mem {α : Type} [DecidableEq α] {l : List α} {x : α}
    (hx : x ∉ l) : (l ++ [x]).erase x = l := by
  rw [List.erase_append_right _ hx, List.erase_cons_head, List.append_nil]

theorem updateCluster_all (st : BState) (cid : Int) (f : BCluster → BCluster) :
    (updateCluster st cid f).all =
      st.all.map fun c => if c.cluster_id = cid then f c else c := by
  simp [updateCluster, BState.all]

theorem hub_mem_all (st : BState) : st.hub ∈ st.all := by
  simp [BState.all]

/-- After the terminating round's revert, a cluster is restored up to the
order of its node list: same id, same anchor, and the same cells as a
permutation. -/
def clusterRestored (c d : BCluster) : Prop :=
  c.cluster_id = d.cluster_id ∧ c.anchor = d.anchor ∧ c.nodes.Perm d.nodes

/-- The action of one updateCluster layer on a single cluster value. -/
def clusterT (t : Int) (g : List BCell → List BCell) (c : BCluster) : BCluster :=
  if c.cluster_id = t then { c with nodes := g c.nodes } else c

theorem clusterT_pos {t : Int} {g : List BCell → List BCell} {c : BCluster}
    (h : c.cluster_id = t) :
    clusterT t g c = { c with nodes := g c.nodes } := if_pos h

theorem clusterT_neg {t : Int} {g : List BCell → List BCell} {c : BCluster}
    (h : ¬ c.cluster_id = t) : clusterT t g c = c := if_neg h

theorem four_op_restore (st : BState) (i1 i2 : Int) (x : BCell)
    (most : BCluster) (hmost : most ∈ st.all) (hi1 : most.cluster_id = i1)
    (hx : x ∈ most.nodes)
    (hid : ∀ c ∈ st.all, ∀ d ∈ st.all, c.cluster_id = d.cluster_id → c = d)
    (hdisj : ∀ c ∈ st.all, ∀ d ∈ st.all, c.cluster_id ≠ d.cluster_id →
      ∀ y ∈ c.nodes, y ∉ d.nodes)
    (hnodup : ∀ c ∈ st.all, c.nodes.Nodup) :
    List.Forall₂ clusterRestored
      (addCell (removeCell (addCell (removeCell st i1 x) i2 x) i2 x) i1 x).all
      st.all := by
  simp only [addCell, removeCell]
  rw [updateCluster_all, updateCluster_all, updateCluster_all, updateCluster_all,
    List.map_map, List.map_map, List.map_map]
  have hshow : List.Forall₂ clusterRestored
      (st.all.map fun c => clusterT i1 (fun l => l ++ [x])
        (clusterT i2 (fun l => l.erase x)
          (clusterT i2 (fun l => l ++ [x])
            (clusterT i1 (fun l => l.erase x) c)))) st.all →
      List.Forall₂ clusterRestored
        (st.all.map ((fun c => if c.cluster_id = i1 then
              { c with nodes := c.nodes ++ [x] } else c) ∘
            (fun c => if c.cluster_id = i2 then
              { c with nodes := c.nodes.erase x } else c) ∘
            (fun c => if c.cluster_id = i2 then
              { c with nodes := c.nodes ++ [x] } else c) ∘
            fun c => if c.cluster_id = i1 then
              { c with nodes := c.nodes.erase x } else c)) st.all := fun h => h
  apply hshow
  rw [List.forall₂_map_left_iff, List.forall₂_same]
  intro c hc
  by_cases h1 : c.cluster_id = i1
  · have hceq : c = most := hid c hc most hmost (by rw [h1, hi1])
    subst hceq
    by_cases h12 : i1 = i2
    · have hxe : x ∉ c.nodes.erase x := (hnodup c hc).not_mem_erase
      simp only [clusterT, h1, ← h12, eq_self_iff_true, if_true]
      refine ⟨h1.symm, rfl, ?_⟩
      show (((c.nodes.erase x ++ [x]).erase x) ++ [x]).Perm c.nodes
      rw [erase_append_of_not_mem hxe]
      exact perm_erase_append hx
    · simp only [clusterT, h1, eq_self_iff_true, if_true, h12, if_false]
      exact ⟨h1.symm, rfl, perm_erase_append hx⟩
  · by_cases h2 : c.cluster_id = i2
    · have hne12 : i1 ≠ i2 := fun he => h1 (h2.trans he.symm)
      have hne21 : ¬ (i2 = i1) := fun he => hne12 he.symm
      have hxn : x ∉ c.nodes := by
        refine hdisj most hmost c hc ?_ x hx
        rw [hi1, h2]
        exact hne12
      simp only [clusterT, h2, eq_self_iff_true, if_true, hne21, if_false]
      refine ⟨h2.symm, rfl, ?_⟩
      show ((c.nodes ++ [x]).erase x).Perm c.nodes
      rw [erase_append_of_not_mem hxn]
    · simp only [clusterT, h1, h2, if_false]
      exact ⟨rfl, rfl, List.Perm.refl _⟩

theorem eight_op_restore (st : BState) (ia ib ic : Int) (x y : BCell)
    (hubC least most : BCluster)
    (hhub : hubC ∈ st.all) (hleast : least ∈ st.all) (hmost : most ∈ st.all)
    (eh : hubC.cluster_id = ia) (el : least.cluster_id = ib)
    (em : most.cluster_id = ic)
    (hne_hl : ia ≠ ib) (hne_hm : ia ≠ ic) (hne_lm : ib ≠ ic)
    (hx : x ∈ hubC.nodes) (hy : y ∈ most.nodes)
    (hid : ∀ c ∈ st.all, ∀ d ∈ st.all, c.cluster_id = d.cluster_id → c = d)
    (hdisj : ∀ c ∈ st.all, ∀ d ∈ st.all, c.cluster_id ≠ d.cluster_id →
      ∀ z ∈ c.nodes, z ∉ d.nodes)
    (_hnodup : ∀ c ∈ st.all, c.nodes.Nodup) :
    List.Forall₂ clusterRestored
      (addCell (removeCell (addCell (removeCell (addCell (removeCell (addCell
        (removeCell st ia x) ib x) ic y) ia y) ib x) ia x) ia y) ic y).all
      st.all := by
  simp only [addCell, removeCell]
  rw [updateCluster_all, updateCluster_all, updateCluster_all, updateCluster_all,
    updateCluster_all, updateCluster_all, updateCluster_all, updateCluster_all,
    List.map_map, List.map_map, List.map_map, List.map_map, List.map_map,
    List.map_map, List.map_map]
  have hshow : List.Forall₂ clusterRestored
      (st.all.map fun c => clusterT ic (fun l => l ++ [y])
        (clusterT ia (fun l => l.erase y)
          (clusterT ia (fun l => l ++ [x])
            (clusterT ib (fun l => l.erase x)
              (clusterT ia (fun l => l ++ [y])
                (clusterT ic (fun l => l.erase y)
                  (clusterT ib (fun l => l ++ [x])
                    (clusterT ia (fun l => l.erase x) c)))))))) st.all →
      List.Forall₂ clusterRestored
        (st.all.map ((fun c => if c.cluster_id = ic then
              { c with nodes := c.nodes ++ [y] } else c) ∘
            (fun c => if c.cluster_id = ia then
              { c with nodes := c.nodes.erase y } else c) ∘
            (fun c => if c.cluster_id = ia then
              { c with nodes := c.nodes ++ [x] } else c) ∘
            (fun c => if c.cluster_id = ib then
              { c with nodes := c.nodes.erase x } else c) ∘
            (fun c => if c.cluster_id = ia then
              { c with nodes := c.nodes ++ [y] } else c) ∘
            (fun c => if c.cluster_id = ic then
              { c with nodes := c.nodes.erase y } else c) ∘
            (fun c => if c.cluster_id = ib then
              { c with nodes := c.nodes ++ [x] } else c) ∘
            fun c => if c.cluster_id = ia then
              { c with nodes := c.nodes.erase x } else c)) st.all := fun h => h
  apply hshow
  rw [List.forall₂_map_left_iff, List.forall₂_same]
  intro c hc
  by_cases hA : c.cluster_id = ia
  · have hceq : c = hubC := hid c hc hubC hhub (by rw [hA, eh])
    subst hceq
    have hyn : y ∉ c.nodes.erase x := by
      intro hmem
      refine hdisj most hmost c hc ?_ y hy (List.mem_of_mem_erase hmem)
      rw [em, hA]
      exact fun he => hne_hm he.symm
    simp only [clusterT, hA, eq_self_iff_true, if_true, hne_hl, hne_hm,
      if_false]
    refine ⟨hA.symm, rfl, ?_⟩
    show (((c.nodes.erase x ++ [y]) ++ [x]).erase y).Perm c.nodes
    rw [List.append_assoc, List.erase_append_right _ hyn,
      List.singleton_append, List.erase_cons_head]
    exact perm_erase_append hx
  · by_cases hB : c.cluster_id = ib
    · have hceq : c = least := hid c hc least hleast (by rw [hB, el])
      subst hceq
      have hba : ¬ (ib = ia) := fun he => hne_hl he.symm
      have hxn : x ∉ c.nodes := by
        refine hdisj hubC hhub c hc ?_ x hx
        rw [eh, hB]
        exact hne_hl
      simp only [clusterT, hB, eq_self_iff_true, if_true, hba, hne_lm,
        if_false]
      refine ⟨hB.symm, rfl, ?_⟩
      show ((c.nodes ++ [x]).erase x).Perm c.nodes
      rw [erase_append_of_not_mem hxn]
    · by_cases hC : c.cluster_id = ic
      · have hceq : c = most := hid c hc most hmost (by rw [hC, em])
        subst hceq
        have hca : ¬ (ic = ia) := fun he => hne_hm he.symm
        have hcb : ¬ (ic = ib) := fun he => hne_lm he.symm
        simp only [clusterT, hC, eq_self_iff_true, if_true, hca, hcb,
          if_false]
        exact ⟨hC.symm, rfl, perm_erase_append hy⟩
      · simp only [clusterT, hA, hB, hC, if_false]
        exact ⟨rfl, rfl, List.Perm.refl _⟩

theorem find?_map_stable (l : List BCluster) (F : BCluster → BCluster)
    (j : Int) (hpres : ∀ c, (F c).cluster_id = c.cluster_id)
    (hstable : ∀ c, c.cluster_id = j → F c = c) :
    (l.map F).find? (fun c => c.cluster_id = j) =
      l.find? (fun c => c.cluster_id = j) := by
  induction l with
  | nil => rfl
  | cons c l ihl =>
    rw [List.map_cons]
    by_cases hcj : c.cluster_id = j
    · have d1 : decide ((F c).cluster_id = j) = true := by
        rw [hpres c]
        exact decide_eq_true hcj
      have d2 : decide (c.cluster_id = j) = true := decide_eq_true hcj
      simp only [List.find?_cons, d1, d2]
      rw [hstable c hcj]
    · have d1 : decide ((F c).cluster_id = j) = false := by
        rw [hpres c]
        exact decide_eq_false hcj
      have d2 : decide (c.cluster_id = j) = false := decide_eq_false hcj
      simp only [List.find?_cons, d1, d2]
      exact ihl

theorem nodesOf_eq_of_mem (st : BState) (c : BCluster) (hc : c ∈ st.all)
    (hid : ∀ a ∈ st.all, ∀ d ∈ st.all, a.cluster_id = d.cluster_id → a = d) :
    nodesOf st c.cluster_id = c.nodes := by
  unfold nodesOf
  cases hf : st.all.find? (fun d => d.cluster_id = c.cluster_id) with
  | none =>
    rw [List.find?_eq_none] at hf
    exact absurd (by simp) (hf c hc)
  | some d =>
    have hd1 := List.find?_some hf
    have hd2 := List.mem_of_find?_eq_some hf
    have hdc : d = c := hid d hd2 c hc (of_decide_eq_true hd1)
    rw [hdc]
    rfl

theorem nodesOf_updateCluster_ne (st : BState) (cid j : Int)
    (g : List BCell → List BCell) (hne : ¬ j = cid) :
    nodesOf (updateCluster st cid fun c => { c with nodes := g c.nodes }) j =
      nodesOf st j := by
  unfold nodesOf
  rw [updateCluster_all, find?_map_stable]
  · intro c
    by_cases hc : c.cluster_id = cid
    · rw [if_pos hc]
    · rw [if_neg hc]
  · intro c hcj
    rw [if_neg (by rw [hcj]; exact hne)]

theorem nodesOf_addCell_ne (st : BState) (cid j : Int) (x : BCell)
    (hne : ¬ j = cid) : nodesOf (addCell st cid x) j = nodesOf st j :=
  nodesOf_updateCluster_ne st cid j (fun l => l ++ [x]) hne

theorem nodesOf_removeCell_ne (st : BState) (cid j : Int) (x : BCell)
    (hne : ¬ j = cid) : nodesOf (removeCell st cid x) j = nodesOf st j :=
  nodesOf_updateCluster_ne st cid j (fun l => l.erase x) hne

/-- C2 amended, both balancer variants: a round that continues has strictly
decreased the standard deviation of per-cluster energies, and the
terminating round's revert restores every cluster's id, anchor and cell
membership, but only up to list order: the moved cell is re-appended at the
tail (remove + add on a Python list), so the restored node lists are
permutations of the originals, not necessarily identical.  For the full
pass the cheapest and most expensive clusters are assumed distinct (when
they coincide, the third branch can move one cell twice and the revert is
not a restoration at all). -/
theorem C2_amended (energy : BState → Int → ℚ) (st st1 : BState)
    (hid : ∀ c ∈ st.all, ∀ d ∈ st.all, c.cluster_id = d.cluster_id → c = d)
    (hdisj : ∀ c ∈ st.all, ∀ d ∈ st.all, c.cluster_id ≠ d.cluster_id →
      ∀ y ∈ c.nodes, y ∉ d.nodes)
    (hnodup : ∀ c ∈ st.all, c.nodes.Nodup) :
    (ecRound energy st = .next st1 →
        stdevSq (energies energy st1) < stdevSq (energies energy st)) ∧
      (optRound energy st = .next st1 →
        stdevSq (energies energy st1) < stdevSq (energies energy st)) ∧
      (ecRound energy st = .stop st1 →
        List.Forall₂ clusterRestored st1.all st.all) ∧
      ((∀ cl cm, pyMin (fun c => energy st c.cluster_id) st.all = some cl →
          pyMax (fun c => energy st c.cluster_id) st.all = some cm →
          cl.cluster_id ≠ cm.cluster_id) →
        optRound energy st = .stop st1 →
        List.Forall₂ clusterRestored st1.all st.all) := by
  refine ⟨?_, ?_, ?_, ?_⟩
  · intro h
    simp only [ecRound] at h
    split at h
    · exact (nomatch h)
    · split at h
      · exact (nomatch h)
      · split at h
        · exact (nomatch h)
        · split at h
          · exact (nomatch h)
          · rename_i hcond
            cases h
            exact not_le.mp hcond
  · intro h
    simp only [optRound] at h
    split at h
    · rename_i c_least c_most
      split at h
      · split at h
        · exact (nomatch h)
        · split at h
          · exact (nomatch h)
          · rename_i hcond
            cases h
            exact not_le.mp hcond
      · split at h
        · split at h
          · exact (nomatch h)
          · split at h
            · exact (nomatch h)
            · rename_i hcond
              cases h
              exact not_le.mp hcond
        · split at h
          · exact (nomatch h)
          · split at h
            · exact (nomatch h)
            · split at h
              · exact (nomatch h)
              · rename_i hcond
                cases h
                exact not_le.mp hcond
    · exact (nomatch h)
  · intro h
    simp only [ecRound] at h
    split at h
    · exact (nomatch h)
    · rename_i c_most hmax
      split at h
      · exact (nomatch h)
      · rename_i neighbor hmin
        split at h
        · exact (nomatch h)
        · rename_i c_out snd hcn
          split at h
          · cases h
            exact four_op_restore st c_most.cluster_id neighbor.cluster_id
              c_out c_most (pyMax_mem _ _ _ hmax) rfl
              (closest_nodes_spec _ _ _ _ _ _ hcn).1 hid hdisj hnodup
          · exact (nomatch h)
  · intro hminmax h
    simp only [optRound] at h
    split at h
    · rename_i c_least c_most hmin hmax
      split at h
      · rename_i hL
        split at h
        · exact (nomatch h)
        · rename_i fst c_in hcn
          split at h
          · cases h
            exact four_op_restore st c_most.cluster_id st.hub.cluster_id
              c_in c_most (pyMax_mem _ _ _ hmax) rfl
              (closest_nodes_spec _ _ _ _ _ _ hcn).2.1 hid hdisj hnodup
          · exact (nomatch h)
      · rename_i hL
        split at h
        · rename_i hM
          split at h
          · exact (nomatch h)
          · rename_i c_out snd hcn
            split at h
            · cases h
              exact four_op_restore st st.hub.cluster_id c_least.cluster_id
                c_out st.hub (hub_mem_all st) rfl
                (closest_nodes_spec _ _ _ _ _ _ hcn).1 hid hdisj hnodup
            · exact (nomatch h)
        · rename_i hM
          split at h
          · exact (nomatch h)
          · rename_i c_out snd hcn1
            split at h
            · exact (nomatch h)
            · rename_i fst c_in hcn2
              split at h
              · cases h
                have hlm : c_least.cluster_id ≠ c_most.cluster_id :=
                  hminmax c_least c_most hmin hmax
                have hy : c_in ∈ c_most.nodes := by
                  have h2 := (closest_nodes_spec _ _ _ _ _ _ hcn2).2.1
                  have hml : ¬ c_most.cluster_id = c_least.cluster_id :=
                    fun he => hlm he.symm
                  have hmh : ¬ c_most.cluster_id = st.hub.cluster_id :=
                    fun he => hM he.symm
                  rw [nodesOf_addCell_ne _ _ _ _ hml,
                    nodesOf_removeCell_ne _ _ _ _ hmh,
                    nodesOf_eq_of_mem st c_most (pyMax_mem _ _ _ hmax) hid]
                    at h2
                  exact h2
                exact eight_op_restore st st.hub.cluster_id
                  c_least.cluster_id c_most.cluster_id c_out c_in
                  st.hub c_least c_most (hub_mem_all st)
                  (pyMin_spec _ _ _ hmin).1 (pyMax_mem _ _ _ hmax)
                  rfl rfl rfl hL hM hlm
                  (closest_nodes_spec _ _ _ _ _ _ hcn1).1 hy hid hdisj hnodup
              · exact (nomatch h)
    · exact (nomatch h)

/-- Pre-round state for the C2 instance: cluster 0 holds three cells with
the middle one nearest to cluster 1's only cell. -/
def c2st0 : BState :=
  ⟨[⟨0, [⟨11, (0, 0)⟩, ⟨10, (1, 0)⟩, ⟨12, (2, 0)⟩], (0, 0)⟩,
    ⟨1, [⟨13, (1, 5)⟩], (0, 0)⟩], ⟨9, [⟨14, (50, 50)⟩], (0, 0)⟩⟩

/-- The state handle_large_ec leaves behind after its reverted final round
on c2st0: the moved cell is re-appended at the tail of cluster 0. -/
def c2st1 : BState :=
  ⟨[⟨0, [⟨11, (0, 0)⟩, ⟨12, (2, 0)⟩, ⟨10, (1, 0)⟩], (0, 0)⟩,
    ⟨1, [⟨13, (1, 5)⟩], (0, 0)⟩], ⟨9, [⟨14, (50, 50)⟩], (0, 0)⟩⟩

/-- C2 as stated is false: under a constant energy model the very first
round fails to improve and is reverted, but the resulting cluster
memberships are not identical to the state before the round - cell 10 (the
moved cell) sits at the tail of cluster 0 instead of its original middle
position, because the revert is a remove followed by a tail append. -/
theorem C2_counterexample :
    ecRound (fun _ _ => (0 : ℚ)) c2st0 = .stop c2st1 ∧ c2st1 ≠ c2st0 ∧
      (c2st1.clusters.map BCluster.nodes ≠ c2st0.clusters.map BCluster.nodes) := by
  refine ⟨?_, ?_, ?_⟩ <;> with_unfolding_all decide

/-- Witness for C2 amended on the same instance: the reverted round's
result is a permutation-restoration of the original state. -/
theorem C2_amended_witness :
    ecRound (fun _ _ => (0 : ℚ)) c2st0 = .stop c2st1 ∧
      List.Forall₂ clusterRestored c2st1.all c2st0.all :=
  ⟨by with_unfolding_all decide,
    (C2_amended (fun _ _ => 0) c2st0 c2st1 (by decide) (by decide)
      (by decide)).2.2.1 (by with_unfolding_all decide)⟩

/-! ### Cluster growth engine (greedy_expansion, lines 284-435, and
handle_large_em, lines 222-234).

Cells are immutable records here; the mutable per-cell cluster_id lives in
the state's assignment map (keyed by cell id, -1 meaning unassigned), which
mirrors the stamping of tour ids onto cells in the source.  Cluster add is
modelled from the spec (flower/cluster.py is not under src/): it appends
the cell, stamps its tour id and updates the recent pointer.  The grid's
ring-neighbor enumeration and the energy model are external parameters. -/

/-- A grid cell as seen by the growth engine. -/
structure GCell : Type where
  gid : Nat
  loc : Pt
  proximity : ℚ
  row : Nat
  col : Nat
  virtual_cluster_id : Int
deriving DecidableEq, Repr

/-- A virtual cluster consumed by growth: id and member cells. -/
structure GVC : Type where
  cluster_id : Int
  cells : List GCell
deriving DecidableEq, Repr

/-- A growth cluster: id, member cells in insertion order, completed flag
and the recent pointer (the most recently added cell). -/
structure GCluster : Type where
  cluster_id : Int
  nodes : List GCell
  completed : Bool
  recent : Option GCell
deriving DecidableEq, Repr

/-- Growth state: the real clusters, the hub, and the cell-id-to-tour-id
assignment. -/
structure GState : Type where
  clusters : List GCluster
  hub : GCluster
  cid : Nat → Int

/-- The static environment of a growth run: the cover (self.cells), the
virtual clusters, the damaged-center placeholder cell, the hub's id, the
larger grid dimension, and the external ring-neighbor enumeration
grid.cell_neighbors(row, col, radius). -/
structure GEnv : Type where
  cover : List GCell
  vcs : List GVC
  damaged : GCell
  hubId : Int
  gridMax : Nat
  ringNbrs : Nat → Nat → Nat → List GCell

/-- Mark the cluster (or hub) with the given id completed (lines 318, 417,
432). -/
def markCompleted (st : GState) (cid : Int) : GState :=
  { st with
    clusters := st.clusters.map fun c =>
      if c.cluster_id = cid then { c with completed := true } else c,
    hub := if st.hub.cluster_id = cid then { st.hub with completed := true }
      else st.hub }

/-- cluster.add(cell) for a non-hub cluster: append the cell, stamp its
tour id, update recent. -/
def addToCluster (st : GState) (cid : Int) (best : GCell) : GState :=
  { st with
    clusters := st.clusters.map fun c =>
      if c.cluster_id = cid then
        { c with nodes := c.nodes ++ [best], recent := some best } else c,
    cid := fun i => if i = best.gid then cid else st.cid i }

/-- The inner neighbor scan of the ring search (lines 403-421): skip cells
outside any virtual cluster, skip cells not in an angularly adjacent
virtual cluster; a first eligible assigned cell is a boundary collision
(some none), a first eligible unassigned cell is the candidate
(some (some c)); none means the ring decided nothing. -/
def ringScan (st : GState) (vciId : Int) : List GCell → Option (Option GCell)
  | [] => none
  | nbr :: rest =>
    if nbr.virtual_cluster_id = -1 then ringScan st vciId rest
    else if (nbr.virtual_cluster_id - vciId).natAbs ≠ 1 then
      ringScan st vciId rest
    else if st.cid nbr.gid ≠ -1 then some none
    else some (some nbr)

/-- The expanding ring search (lines 398-424): radii 1 .. gridMax, first
ring that decides wins. -/
def ringSearch (env : GEnv) (st : GState) (vciId : Int) (recent : GCell) :
    Option (Option GCell) :=
  firstDecision ((List.range' 1 env.gridMax).map fun i =>
    env.ringNbrs recent.row recent.col i)
where
  firstDecision : List (List GCell) → Option (Option GCell)
    | [] => none
    | ring :: rest =>
      match ringScan st vciId ring with
      | some d => some d
      | none => firstDecision rest

/-- One iteration of the greedy-expansion loop body (lines 300-435),
entered with the loop condition already checked.  none models a Python
exception (min of an empty sequence, StopIteration, or a missing recent
pointer). -/
def growthRound (env : GEnv) (energy : GState → Int → ℚ) (st : GState) :
    Option GState :=
  let candidates := (st.clusters ++ [st.hub]).filter fun c => !c.completed
  match pyMin (fun c => energy st c.cluster_id) candidates with
  | none => none
  | some c_least =>
    let cells := env.cover.filter fun c => st.cid c.gid = -1
    if cells = [] then some (markCompleted st c_least.cluster_id)
    else if c_least.cluster_id = st.hub.cluster_id then
      if st.hub.nodes = [env.damaged] then
        match pyMin GCell.proximity cells with
        | none => none
        | some best =>
          some { st with
            hub := { st.hub with nodes := [best], recent := some best },
            cid := fun i =>
              if i = best.gid then st.hub.cluster_id
              else if i = env.damaged.gid then -1
              else st.cid i }
      else
        match st.hub.recent with
        | none => none
        | some recent =>
          match closest_nodes GCell.loc GCell.loc
              (env.cover.filter fun c => c ∉ st.hub.nodes) [recent] with
          | none => none
          | some (best, _) =>
            some { st with
              hub :=
                { st.hub with
                  nodes := st.hub.nodes ++ [best]
                  recent := some best }
              cid := fun i =>
                if i = best.gid then st.hub.cluster_id else st.cid i }
    else
      match env.vcs.find? fun vc => vc.cluster_id = c_least.cluster_id with
      | none => none
      | some vci =>
        match vci.cells.filter fun c => st.cid c.gid = -1 with
        | cand :: cands =>
          match c_least.recent with
          | none => none
          | some recent =>
            match closest_nodes GCell.loc GCell.loc (cand :: cands)
                [recent] with
            | none => none
            | some (best, _) =>
              some (addToCluster st c_least.cluster_id best)
        | [] =>
          match c_least.recent with
          | none => none
          | some recent =>
            match ringSearch env st vci.cluster_id recent with
            | some none => some (markCompleted st c_least.cluster_id)
            | some (some best) =>
              some (addToCluster st c_least.cluster_id best)
            | none => some (markCompleted st c_least.cluster_id)

/-- One step of the greedy-expansion bootstrap (lines 288-294): create a
real cluster with the virtual cluster's id holding the virtual cluster's
cell nearest the hub (which holds only the damaged-center cell). -/
def bootstrapStep (env : GEnv) (acc : Option GState) (vc : GVC) :
    Option GState :=
  acc.bind fun st =>
    match closest_nodes GCell.loc GCell.loc vc.cells [env.damaged] with
    | none => none
    | some (closest_cell, _) =>
      some { st with
        clusters := st.clusters ++
          [⟨vc.cluster_id, [closest_cell], false, some closest_cell⟩],
        cid := fun i =>
          if i = closest_cell.gid then vc.cluster_id else st.cid i }

/-- The bootstrap of greedy_expansion (lines 288-294). -/
def greedy_bootstrap (env : GEnv) : Option GState :=
  env.vcs.foldl (bootstrapStep env)
    (some ⟨[], ⟨env.hubId, [env.damaged], false, none⟩,
      fun i => if i = env.damaged.gid then env.hubId else -1⟩)

/-- The greedy-expansion loop (lines 297-435), fueled: run rounds while
some real cluster is not completed. -/
def greedy_loop (env : GEnv) (energy : GState → Int → ℚ) :
    Nat → GState → Option GState
  | 0, _ => none
  | fuel + 1, st =>
    if st.clusters.all fun c => c.completed then some st
    else (growthRound env energy st).bind (greedy_loop env energy fuel)

/-- greedy_expansion: bootstrap then the growth loop. -/
def greedy_expansion (env : GEnv) (energy : GState → Int → ℚ)
    (fuel : Nat) : Option GState :=
  (greedy_bootstrap env).bind (greedy_loop env energy fuel)

/-- handle_large_em (lines 222-234): one real cluster per virtual cluster
with exactly the virtual cluster's cell membership, stamping each cell's
tour id; cid0 is the assignment before the branch runs. -/
def handle_large_em (env : GEnv) (cid0 : Nat → Int) : GState :=
  { clusters := env.vcs.map fun vc =>
      ⟨vc.cluster_id, vc.cells, false, vc.cells.getLast?⟩,
    hub := ⟨env.hubId, [env.damaged], false, none⟩,
    cid := env.vcs.foldl
      (fun f vc => fun i =>
        if vc.cells.any fun c => c.gid = i then vc.cluster_id else f i)
      cid0 }

/-- Cells of the concrete growth instance.  cellA forms virtual cluster 0;
cellB, cellC, cellE form virtual cluster 1; cellD is the damaged-center
placeholder. -/
def cellA : GCell := ⟨0, (0, 5), 5, 0, 0, 0⟩

def cellB : GCell := ⟨1, (3, 0), 3, 0, 0, 1⟩

def cellC : GCell := ⟨2, (4, 0), 4, 0, 0, 1⟩

def cellE : GCell := ⟨3, (10, 0), 10, 0, 0, 1⟩

def cellD : GCell := ⟨99, (0, 0), 0, 0, 0, -1⟩

def c1env : GEnv :=
  ⟨[cellA, cellB, cellC, cellE], [⟨0, [cellA]⟩, ⟨1, [cellB, cellC, cellE]⟩],
    cellD, 7, 3, fun _ _ _ => []⟩

/-- An admissible external energy model for the instance: the hub is
cheapest until it has grown to two cells, cluster 1 is next cheapest while
unassigned cells remain. -/
def c1energy : GState → Int → ℚ := fun st cid =>
  if cid = 7 then (if st.hub.nodes.length ≤ 1 then 0 else 50)
  else if cid = 1 then
    (if [(0 : Nat), 1, 2, 3].any (fun i => st.cid i == -1) then 1 else 10)
  else 5

/-- C1 as stated is false: the greedy expansion completes (all clusters
marked completed), every cover cell carries a non-placeholder tour id, yet
cellB is simultaneously a member of the hub's cell list and of cluster 1's
cell list - the hub expansion at line 356 draws from all cover cells
outside the hub, not just unassigned ones, and absorbing an assigned cell
does not remove it from its previous cluster. -/
theorem C1_counterexample :
    ((greedy_expansion c1env c1energy 10).map fun final =>
      decide (cellB ∈ final.hub.nodes) &&
        final.clusters.any (fun c => c.cluster_id == 1 &&
          decide (cellB ∈ c.nodes)) &&
        final.clusters.all (fun c => c.completed) &&
        c1env.cover.all (fun c => final.cid c.gid != -1)) = some true := by
  with_unfolding_all decide

/-- The state of the instance after the bootstrap and the hub's first
relocation round. -/
def c3s2 : Option GState :=
  (greedy_bootstrap c1env).bind (growthRound c1env c1energy)

/-- C3 as stated is false: one round after the hub's relocation, the hub is
again the chosen lowest-energy cluster, and the cell the round appends to
the hub (cellB, nearest to the hub's most recent cell) is already assigned
to tour 1, not unassigned. -/
theorem C3_counterexample :
    (c3s2.map fun st =>
      ((pyMin (fun c => c1energy st c.cluster_id)
          ((st.clusters ++ [st.hub]).filter fun c => !c.completed)).map
            (fun c => c.cluster_id) == some 7) &&
        decide (¬ st.hub.nodes = [c1env.damaged]) &&
        (st.cid cellB.gid == 1) &&
        ((growthRound c1env c1energy st).map (fun st2 => st2.hub.nodes) ==
          some (st.hub.nodes ++ [cellB]))) = some true := by
  with_unfolding_all decide

/-- C3 amended: on a hub growth step after the first relocation, the cell
added to the hub is the cover cell outside the hub's current membership
nearest to the hub's most recently added cell, with no requirement that it
be unassigned - it is stamped with the hub's id whether or not another
tour already owns it. -/
theorem C3_amended (env : GEnv) (energy : GState → Int → ℚ) (st : GState)
    (c_least : GCluster) (best snd recent : GCell)
    (hmin : pyMin (fun c => energy st c.cluster_id)
      ((st.clusters ++ [st.hub]).filter fun c => !c.completed) = some c_least)
    (hhub : c_least.cluster_id = st.hub.cluster_id)
    (hcells : ¬ env.cover.filter (fun c => st.cid c.gid = -1) = [])
    (hnotdam : ¬ st.hub.nodes = [env.damaged])
    (hrec : st.hub.recent = some recent)
    (hcn : closest_nodes GCell.loc GCell.loc
        (env.cover.filter fun c => c ∉ st.hub.nodes) [recent] =
      some (best, snd)) :
    growthRound env energy st = some
        { st with
          hub :=
            { st.hub with
              nodes := st.hub.nodes ++ [best]
              recent := some best }
          cid := fun i =>
            if i = best.gid then st.hub.cluster_id else st.cid i } ∧
      best ∈ env.cover ∧ best ∉ st.hub.nodes ∧
      ∀ d ∈ env.cover, d ∉ st.hub.nodes →
        dist2 best.loc recent.loc ≤ dist2 d.loc recent.loc := by
  have hspec := closest_nodes_spec _ _ _ _ _ _ hcn
  have hbm := hspec.1
  rw [List.mem_filter] at hbm
  have hsr : snd = recent := by
    have := hspec.2.1
    rwa [List.mem_singleton] at this
  refine ⟨?_, hbm.1, of_decide_eq_true hbm.2, ?_⟩
  · simp only [growthRound]
    rw [hmin]
    simp only []
    rw [if_neg hcells, if_pos hhub, if_neg hnotdam, hrec]
    simp only []
    rw [hcn]
  · intro d hd hdn
    have := hspec.2.2 d (List.mem_filter.mpr ⟨hd, decide_eq_true hdn⟩)
      recent (List.mem_singleton_self recent)
    rwa [hsr] at this

/-- The pre-round state used to witness C3 amended: cluster 0 holds cellA,
cluster 1 holds cellB, the relocated hub holds cellC. -/
def w3st : GState :=
  ⟨[⟨0, [cellA], false, some cellA⟩, ⟨1, [cellB], false, some cellB⟩],
    ⟨7, [cellC], false, some cellC⟩,
    fun i => if i = 0 then 0 else if i = 1 then 1 else
      if i = 2 then 7 else -1⟩

/-- Witness for C3 amended at the concrete pre-round state. -/
theorem C3_amended_witness :
    growthRound c1env c1energy w3st = some
        { w3st with
          hub :=
            { w3st.hub with
              nodes := w3st.hub.nodes ++ [cellB]
              recent := some cellB }
          cid := fun i =>
            if i = cellB.gid then w3st.hub.cluster_id else w3st.cid i } ∧
      cellB ∈ c1env.cover ∧ cellB ∉ w3st.hub.nodes ∧
      ∀ d ∈ c1env.cover, d ∉ w3st.hub.nodes →
        dist2 cellB.loc cellC.loc ≤ dist2 d.loc cellC.loc :=
  C3_amended c1env c1energy w3st w3st.hub cellB cellC cellC
    (by with_unfolding_all decide) rfl (by with_unfolding_all decide)
    (by decide) rfl (by with_unfolding_all decide)

/-- The growth invariant: the hub keeps the hub id, the real clusters
carry exactly the virtual clusters' ids, and a completed cluster's virtual
cluster is fully assigned. -/
def GINV (env : GEnv) (st : GState) : Prop :=
  st.hub.cluster_id = env.hubId ∧
    st.clusters.map GCluster.cluster_id = env.vcs.map GVC.cluster_id ∧
    ∀ c ∈ st.clusters, c.completed = true →
      ∀ vc ∈ env.vcs, vc.cluster_id = c.cluster_id →
        ∀ cell ∈ vc.cells, st.cid cell.gid ≠ -1

theorem map_id_pres (F : GCluster → GCluster)
    (hF : ∀ c, (F c).cluster_id = c.cluster_id) :
    ∀ l : List GCluster,
      (l.map F).map GCluster.cluster_id = l.map GCluster.cluster_id := by
  intro l
  induction l with
  | nil => rfl
  | cons c t ih => simp only [List.map_cons, hF c, ih]

theorem markCompleted_preserves (env : GEnv) (st : GState) (cid' : Int)
    (hinv : GINV env st)
    (hassigned : ∀ vc ∈ env.vcs, vc.cluster_id = cid' →
      ∀ cell ∈ vc.cells, st.cid cell.gid ≠ -1) :
    GINV env (markCompleted st cid') := by
  obtain ⟨hhub, hids, hcomp⟩ := hinv
  refine ⟨?_, ?_, ?_⟩
  · show (if st.hub.cluster_id = cid' then _ else st.hub).cluster_id = env.hubId
    split
    · exact hhub
    · exact hhub
  · show ((st.clusters.map _).map GCluster.cluster_id) = _
    rw [map_id_pres]
    · exact hids
    · intro c
      split
      · rfl
      · rfl
  · intro c' hc' hcpl vc hvc hvceq cell hcell
    show st.cid cell.gid ≠ -1
    obtain ⟨c, hc, hFc⟩ := List.mem_map.mp hc'
    by_cases hcc : c.cluster_id = cid'
    · refine hassigned vc hvc ?_ cell hcell
      rw [hvceq, ← hFc]
      show (if c.cluster_id = cid' then _ else c).cluster_id = cid'
      rw [if_pos hcc]
      exact hcc
    · rw [← hFc] at hcpl
      rw [if_neg hcc] at hcpl
      refine hcomp c hc hcpl vc hvc ?_ cell hcell
      rw [hvceq, ← hFc, if_neg hcc]

theorem addToCluster_preserves (env : GEnv) (st : GState) (cid' : Int)
    (best : GCell) (hne : cid' ≠ -1) (hinv : GINV env st) :
    GINV env (addToCluster st cid' best) := by
  obtain ⟨hhub, hids, hcomp⟩ := hinv
  refine ⟨hhub, ?_, ?_⟩
  · show ((st.clusters.map _).map GCluster.cluster_id) = _
    rw [map_id_pres]
    · exact hids
    · intro c
      split
      · rfl
      · rfl
  · intro c' hc' hcpl vc hvc hvceq cell hcell
    show (if cell.gid = best.gid then cid' else st.cid cell.gid) ≠ -1
    by_cases hbg : cell.gid = best.gid
    · rw [if_pos hbg]
      exact hne
    · rw [if_neg hbg]
      obtain ⟨c, hc, hFc⟩ := List.mem_map.mp hc'
      by_cases hcc : c.cluster_id = cid'
      · rw [← hFc, if_pos hcc] at hcpl hvceq
        refine hcomp c hc hcpl vc hvc ?_ cell hcell
        exact hvceq
      · rw [← hFc, if_neg hcc] at hcpl hvceq
        exact hcomp c hc hcpl vc hvc hvceq cell hcell

theorem growthRound_preserves (env : GEnv) (energy : GState → Int → ℚ)
    (st st' : GState)
    (hvcid : ∀ v ∈ env.vcs, ∀ w ∈ env.vcs, v.cluster_id = w.cluster_id → v = w)
    (hvcne : ∀ v ∈ env.vcs, v.cluster_id ≠ -1)
    (hvcc : ∀ vc ∈ env.vcs, ∀ c ∈ vc.cells, c ∈ env.cover)
    (hdam : ∀ c ∈ env.cover, ¬ c.gid = env.damaged.gid)
    (hhubne : env.hubId ≠ -1)
    (hinv : GINV env st)
    (h : growthRound env energy st = some st') : GINV env st' := by
  obtain ⟨hhub, hids, hcomp⟩ := hinv
  simp only [growthRound] at h
  split at h
  · exact (nomatch h)
  · rename_i c_least hmin
    split at h
    · rename_i hguard
      cases h
      refine markCompleted_preserves env st _ ⟨hhub, hids, hcomp⟩ ?_
      intro vc hvc _ cell hcell
      have hmem : cell ∈ env.cover := hvcc vc hvc cell hcell
      have hfe := List.filter_eq_nil_iff.mp hguard cell hmem
      intro hassigned0
      exact hfe (decide_eq_true hassigned0)
    · split at h
      · rename_i hL
        split at h
        · split at h
          · exact (nomatch h)
          · rename_i best hbest
            cases h
            refine ⟨hhub, hids, ?_⟩
            intro c' hc' hcpl vc hvc hvceq cell hcell
            show (if cell.gid = best.gid then st.hub.cluster_id
              else if cell.gid = env.damaged.gid then -1
              else st.cid cell.gid) ≠ -1
            by_cases hbg : cell.gid = best.gid
            · rw [if_pos hbg, hhub]
              exact hhubne
            · rw [if_neg hbg,
                if_neg (hdam cell (hvcc vc hvc cell hcell))]
              exact hcomp c' hc' hcpl vc hvc hvceq cell hcell
        · split at h
          · exact (nomatch h)
          · rename_i recent hrec
            split at h
            · exact (nomatch h)
            · rename_i best snd hcn
              cases h
              refine ⟨hhub, hids, ?_⟩
              intro c' hc' hcpl vc hvc hvceq cell hcell
              show (if cell.gid = best.gid then st.hub.cluster_id
                else st.cid cell.gid) ≠ -1
              by_cases hbg : cell.gid = best.gid
              · rw [if_pos hbg, hhub]
                exact hhubne
              · rw [if_neg hbg]
                exact hcomp c' hc' hcpl vc hvc hvceq cell hcell
      · rename_i hL
        have hcl2 : c_least ∈ st.clusters := by
          have hm := (List.mem_filter.mp (pyMin_spec _ _ _ hmin).1).1
          rw [List.mem_append] at hm
          rcases hm with hm | hm
          · exact hm
          · rw [List.mem_singleton] at hm
            exact absurd (by rw [hm]) hL
        have hcl_ne : c_least.cluster_id ≠ -1 := by
          have hmm : c_least.cluster_id ∈
              st.clusters.map GCluster.cluster_id :=
            List.mem_map_of_mem _ hcl2
          rw [hids] at hmm
          obtain ⟨vc, hvc, hvceq⟩ := List.mem_map.mp hmm
          rw [← hvceq]
          exact hvcne vc hvc
        split at h
        · exact (nomatch h)
        · rename_i vci hfind
          split at h
          · rename_i cand cands hcands
            split at h
            · exact (nomatch h)
            · rename_i recent hrec
              split at h
              · exact (nomatch h)
              · rename_i best snd hcn
                cases h
                exact addToCluster_preserves env st _ best hcl_ne
                  ⟨hhub, hids, hcomp⟩
          · rename_i hcands
            have hvciassigned : ∀ vc ∈ env.vcs,
                vc.cluster_id = c_least.cluster_id →
                ∀ cell ∈ vc.cells, st.cid cell.gid ≠ -1 := by
              intro vc hvc hvceq cell hcell
              have hvci_mem := List.mem_of_find?_eq_some hfind
              have hvci_pred := List.find?_some hfind
              have hvceq2 : vci.cluster_id = c_least.cluster_id :=
                of_decide_eq_true hvci_pred
              have : vc = vci :=
                hvcid vc hvc vci hvci_mem (by rw [hvceq, ← hvceq2])
              subst this
              have hfe := List.filter_eq_nil_iff.mp hcands cell hcell
              intro hassigned0
              exact hfe (decide_eq_true hassigned0)
            split at h
            · exact (nomatch h)
            · rename_i recent hrec
              split at h
              · cases h
                exact markCompleted_preserves env st _ ⟨hhub, hids, hcomp⟩
                  hvciassigned
              · rename_i best hring
                cases h
                exact addToCluster_preserves env st _ best hcl_ne
                  ⟨hhub, hids, hcomp⟩
              · cases h
                exact markCompleted_preserves env st _ ⟨hhub, hids, hcomp⟩
                  hvciassigned

theorem bootstrap_fold_none (env : GEnv) (l : List GVC) :
    l.foldl (bootstrapStep env) none = none := by
  induction l with
  | nil => rfl
  | cons vc rest ih => exact ih

theorem bootstrap_fold_spec (env : GEnv) : ∀ (l : List GVC) (st st0 : GState),
    st.hub.cluster_id = env.hubId →
    (∀ c ∈ st.clusters, c.completed = false) →
    l.foldl (bootstrapStep env) (some st) = some st0 →
    st0.hub.cluster_id = env.hubId ∧
      st0.clusters.map GCluster.cluster_id =
        st.clusters.map GCluster.cluster_id ++ l.map GVC.cluster_id ∧
      ∀ c ∈ st0.clusters, c.completed = false := by
  intro l
  induction l with
  | nil =>
    intro st st0 hh hc h
    cases h
    exact ⟨hh, by simp, hc⟩
  | cons vc rest ih =>
    intro st st0 hh hc h
    rw [List.foldl_cons] at h
    cases hcn : closest_nodes GCell.loc GCell.loc vc.cells [env.damaged] with
    | none =>
      rw [show bootstrapStep env (some st) vc = none by
          rw [bootstrapStep, Option.some_bind, hcn]] at h
      rw [bootstrap_fold_none] at h
      cases h
    | some p =>
      obtain ⟨cc, sn⟩ := p
      rw [show bootstrapStep env (some st) vc = some
          { st with
            clusters := st.clusters ++
              [⟨vc.cluster_id, [cc], false, some cc⟩],
            cid := fun i =>
              if i = cc.gid then vc.cluster_id else st.cid i } by
          rw [bootstrapStep, Option.some_bind, hcn]] at h
      obtain ⟨h1, h2, h3⟩ := ih ⟨st.clusters ++
          [⟨vc.cluster_id, [cc], false, some cc⟩], st.hub,
          fun i => if i = cc.gid then vc.cluster_id else st.cid i⟩ st0 hh
        (by
          intro c hcmem
          rw [List.mem_append] at hcmem
          rcases hcmem with hcmem | hcmem
          · exact hc c hcmem
          · rw [List.mem_singleton] at hcmem
            rw [hcmem]) h
      refine ⟨h1, ?_, h3⟩
      rw [h2]
      simp [List.map_append]

theorem greedy_bootstrap_inv (env : GEnv) (st0 : GState)
    (h : greedy_bootstrap env = some st0) : GINV env st0 := by
  obtain ⟨h1, h2, h3⟩ := bootstrap_fold_spec env env.vcs _ st0 rfl
    (by intro c hc; cases hc) h
  refine ⟨h1, by simpa using h2, ?_⟩
  intro c hc hcpl
  rw [h3 c hc] at hcpl
  cases hcpl

theorem greedy_loop_assigned (env : GEnv) (energy : GState → Int → ℚ)
    (hvcid : ∀ v ∈ env.vcs, ∀ w ∈ env.vcs, v.cluster_id = w.cluster_id → v = w)
    (hvcne : ∀ v ∈ env.vcs, v.cluster_id ≠ -1)
    (hvcc : ∀ vc ∈ env.vcs, ∀ c ∈ vc.cells, c ∈ env.cover)
    (hdam : ∀ c ∈ env.cover, ¬ c.gid = env.damaged.gid)
    (hhubne : env.hubId ≠ -1) :
    ∀ (fuel : Nat) (st st' : GState), GINV env st →
      greedy_loop env energy fuel st = some st' →
      GINV env st' ∧ ∀ c ∈ st'.clusters, c.completed = true := by
  intro fuel
  induction fuel with
  | zero => intro st st' _ h; exact (nomatch h)
  | succ n ih =>
    intro st st' hinv h
    rw [greedy_loop] at h
    split at h
    · rename_i hall
      cases h
      exact ⟨hinv, fun c hc => List.all_eq_true.mp hall c hc⟩
    · cases hgr : growthRound env energy st with
      | none =>
        rw [hgr] at h
        cases h
      | some st1 =>
        rw [hgr] at h
        simp only [Option.some_bind] at h
        exact ih st1 st'
          (growthRound_preserves env energy st st1 hvcid hvcne hvcc hdam
            hhubne hinv hgr) h

theorem em_fold_ne (env : GEnv)
    (hne : ∀ v ∈ env.vcs, v.cluster_id ≠ -1) :
    ∀ (l : List GVC), (∀ v ∈ l, v ∈ env.vcs) →
    ∀ (base : Nat → Int) (i : Nat),
      ((∃ v ∈ l, (v.cells.any fun c => c.gid = i) = true) ∨ base i ≠ -1) →
      (l.foldl
        (fun f vc => fun j =>
          if vc.cells.any fun c => c.gid = j then vc.cluster_id else f j)
        base) i ≠ -1 := by
  intro l
  induction l with
  | nil =>
    intro _ base i hbase
    rcases hbase with ⟨v, hv, _⟩ | hbase
    · cases hv
    · exact hbase
  | cons vc rest ih =>
    intro hsub base i hbase
    rw [List.foldl_cons]
    refine ih (fun v hv => hsub v (List.mem_cons_of_mem vc hv)) _ i ?_
    by_cases hany : (vc.cells.any fun c => c.gid = i) = true
    · right
      rw [if_pos hany]
      exact hne vc (hsub vc (List.mem_cons_self vc rest))
    · rcases hbase with ⟨v, hv, hvany⟩ | hbase
      · rw [List.mem_cons] at hv
        rcases hv with rfl | hv
        · exact absurd hvany hany
        · exact Or.inl ⟨v, hv, hvany⟩
      · right
        rw [if_neg hany]
        exact hbase

/-- C1 amended: in the movement-dominant branch every covered cell ends
with a non-placeholder tour id and belongs to exactly one tour's cell
list; in the greedy-expansion branch every covered cell still ends with a
non-placeholder tour id when the loop exits normally, but a cell is not
always in exactly one cluster's list - the hub can absorb a cell already
assigned to another tour, leaving it in two lists at completion. -/
theorem C1_amended (env : GEnv) (cid0 : Nat → Int)
    (energy : GState → Int → ℚ) (fuel : Nat) (final : GState)
    (hvcid : ∀ v ∈ env.vcs, ∀ w ∈ env.vcs, v.cluster_id = w.cluster_id → v = w)
    (hvcdisj : ∀ v ∈ env.vcs, ∀ w ∈ env.vcs, v.cluster_id ≠ w.cluster_id →
      ∀ c ∈ v.cells, c ∉ w.cells)
    (hvcne : ∀ v ∈ env.vcs, v.cluster_id ≠ -1)
    (hcover : ∀ cell ∈ env.cover, ∃ vc ∈ env.vcs, cell ∈ vc.cells)
    (hvcc : ∀ vc ∈ env.vcs, ∀ c ∈ vc.cells, c ∈ env.cover)
    (hdam : ∀ c ∈ env.cover, ¬ c.gid = env.damaged.gid)
    (hhubne : env.hubId ≠ -1) :
    (∀ cell ∈ env.cover,
      (handle_large_em env cid0).cid cell.gid ≠ -1 ∧
      ∃ c, c ∈ (handle_large_em env cid0).clusters ∧ cell ∈ c.nodes ∧
        ∀ d ∈ (handle_large_em env cid0).clusters, cell ∈ d.nodes → d = c) ∧
    (greedy_expansion env energy fuel = some final →
      ∀ cell ∈ env.cover, final.cid cell.gid ≠ -1) := by
  constructor
  · intro cell hcell
    obtain ⟨vc, hvc, hcellvc⟩ := hcover cell hcell
    constructor
    · refine em_fold_ne env hvcne env.vcs (fun v hv => hv) cid0 cell.gid
        (Or.inl ⟨vc, hvc, ?_⟩)
      rw [List.any_eq_true]
      exact ⟨cell, hcellvc, by simp⟩
    · refine ⟨⟨vc.cluster_id, vc.cells, false, vc.cells.getLast?⟩, ?_, hcellvc, ?_⟩
      · exact List.mem_map_of_mem _ hvc
      · intro d hd hcelld
        obtain ⟨w, hw, hwd⟩ := List.mem_map.mp hd
        rw [← hwd] at hcelld
        have hww : w = vc := by
          by_contra hne2
          by_cases hidq : w.cluster_id = vc.cluster_id
          · exact hne2 (hvcid w hw vc hvc hidq)
          · exact hvcdisj vc hvc w hw (fun he => hidq he.symm) cell
              hcellvc hcelld
        rw [← hwd, hww]
  · intro h cell hcell
    rw [greedy_expansion] at h
    cases hb : greedy_bootstrap env with
    | none =>
      rw [hb] at h
      cases h
    | some st0 =>
      rw [hb] at h
      simp only [Option.some_bind] at h
      obtain ⟨⟨hhub, hids, hcomp⟩, hall⟩ :=
        greedy_loop_assigned env energy hvcid hvcne hvcc hdam hhubne
          fuel st0 final (greedy_bootstrap_inv env st0 hb) h
      obtain ⟨vc, hvc, hcellvc⟩ := hcover cell hcell
      have hidmem : vc.cluster_id ∈ final.clusters.map GCluster.cluster_id := by
        rw [hids]
        exact List.mem_map_of_mem _ hvc
      obtain ⟨c, hc, hceq⟩ := List.mem_map.mp hidmem
      exact hcomp c hc (hall c hc) vc hvc hceq.symm cell hcellvc

/-- Witness for C1 amended: the concrete four-cell instance satisfies every
hypothesis (distinct non-placeholder cluster ids, disjoint virtual clusters
covering the cover, damaged cell outside the cover), so the movement-dominant
branch assigns each cover cell a non-placeholder id and a unique cluster, and
the greedy conclusion holds at the instantiated state. -/
theorem C1_amended_witness :
    (∀ cell ∈ c1env.cover,
      (handle_large_em c1env fun _ => -1).cid cell.gid ≠ -1 ∧
      ∃ c, c ∈ (handle_large_em c1env fun _ => -1).clusters ∧ cell ∈ c.nodes ∧
        ∀ d ∈ (handle_large_em c1env fun _ => -1).clusters,
          cell ∈ d.nodes → d = c) ∧
    (greedy_expansion c1env c1energy 10 =
        some ⟨[], ⟨7, [cellD], false, none⟩, fun _ => -1⟩ →
      ∀ cell ∈ c1env.cover,
        (GState.mk [] ⟨7, [cellD], false, none⟩ fun _ => -1).cid cell.gid ≠
          -1) :=
  C1_amended c1env (fun _ => -1) c1energy 10
    ⟨[], ⟨7, [cellD], false, none⟩, fun _ => -1⟩
    (by with_unfolding_all decide) (by with_unfolding_all decide)
    (by with_unfolding_all decide) (by with_unfolding_all decide)
    (by with_unfolding_all decide) (by with_unfolding_all decide)
    (by with_unfolding_all decide)

end Flower
